import Mathlib

/-!
# MusicBoard: verification of the simulation-and-timeline engine

Shallow embedding, in Lean 4, of the algorithmic core of the MusicBoard
repository (files `main.py`, `cube.py`, `hybrid.py`, `panda.py`, `game.py`):

* the per-frame MIDI timeline scheduler (the `while pending_midi_events and
  pending_midi_events[0][0] <= current_play_time: pop(0)` loop of `main`),
* the cellular-automaton step (`count_neighbors`, `update_logic`,
  `apply_war_rules` of `main.py`; `update_grid` of `hybrid.py`),
* cell interpolation (`lerp_color`, `lerp_cell`),
* sample resampling (`pitch_shift`),
* trigger injection (`add_piece_to_board`),
* the per-frame control flow of `main` (dispatch, auto-advance, pause).

Machine integers are modelled by `ℤ`/`ℕ`, Python floats by `ℚ` (the
properties below are about the exact arithmetic the code performs, none
hinges on rounding of binary floats), and the hidden global random stream
by an explicit stream `rng : ℕ → ℚ` together with a cursor that each
consuming call advances — `random.random()` yields the value under the
cursor, `random.choice(seq)` picks `seq[int(7·x)]` for the drawn `x`, and
`random.uniform(a, b)` yields `a + (b-a)·x`.  Grids are total functions
from `ℤ × ℤ` coordinates to optional cells; Python's in-place writes
become functional updates, and the pair of arrays (`grid`, `new_grid`)
that the imperative loops manipulate becomes an explicit two-field store,
so that "which array does each statement write" is part of the model.
-/

section MusicBoard

/- `Rat`'s arithmetic is `@[irreducible]` upstream; restore the default
reducibility inside this development so that concrete runs of the
embedded code evaluate (`decide`) on rational cell attributes. -/
attribute [local semireducible] Rat.add Rat.sub Rat.mul Rat.inv

/-! ## Timeline scheduler (`main.py`, lines 439-447)

`advance elapsed pending` is the per-frame dispatch loop: while the head
of `pending` has a timestamp `≤ elapsed` (elapsed playback time, i.e.
`now - startAnchor`), pop it; it returns the popped (dispatched) events
in pop order together with the remaining queue. -/

namespace Sched

variable {α : Type}

/-- Is the event due at elapsed playback time `elapsed`?
(`pending_midi_events[0][0] <= current_play_time`). -/
def isDue (elapsed : ℤ) (e : ℤ × α) : Bool :=
  decide (e.1 ≤ elapsed)

/-- The `while pending and pending[0][0] <= current_play_time: pop(0)` loop:
returns (dispatched events in order, remaining queue). -/
def advance (elapsed : ℤ) : List (ℤ × α) → List (ℤ × α) × List (ℤ × α)
  | [] => ([], [])
  | e :: rest =>
    if e.1 ≤ elapsed then
      let r := advance elapsed rest
      (e :: r.1, r.2)
    else
      ([], e :: rest)

/-- Running the dispatch loop once per frame over a whole sequence of
clock readings: returns the list of per-frame dispatched batches and the
final remaining queue. -/
def advanceRun (startAnchor : ℤ) (clocks : List ℤ) (pending : List (ℤ × α)) :
    List (List (ℤ × α)) × List (ℤ × α) :=
  match clocks with
  | [] => ([], pending)
  | c :: cs =>
    let r := advance (c - startAnchor) pending
    let rest := advanceRun startAnchor cs r.2
    (r.1 :: rest.1, rest.2)

theorem advance_eq_takeWhile_dropWhile (elapsed : ℤ) (l : List (ℤ × α)) :
    advance elapsed l = (l.takeWhile (isDue elapsed), l.dropWhile (isDue elapsed)) := by
  induction l with
  | nil => rfl
  | cons e rest ih =>
    by_cases h : e.1 ≤ elapsed
    · simp [advance, h, ih, List.takeWhile_cons, List.dropWhile_cons, isDue]
    · simp [advance, h, List.takeWhile_cons, List.dropWhile_cons, isDue]

/-- Timestamps are sorted ascending. -/
def TsSorted (l : List (ℤ × α)) : Prop :=
  l.Pairwise (fun e f => e.1 ≤ f.1)

theorem tsSorted_cons {e : ℤ × α} {l : List (ℤ × α)} (h : TsSorted (e :: l)) :
    (∀ f ∈ l, e.1 ≤ f.1) ∧ TsSorted l := by
  rw [TsSorted, List.pairwise_cons] at h
  exact h

theorem takeWhile_isDue_eq_filter (elapsed : ℤ) :
    ∀ l : List (ℤ × α), TsSorted l →
      l.takeWhile (isDue elapsed) = l.filter (isDue elapsed) := by
  intro l hl
  induction l with
  | nil => rfl
  | cons e rest ih =>
    obtain ⟨he, hrest⟩ := tsSorted_cons hl
    by_cases h : e.1 ≤ elapsed
    · have hd : isDue elapsed e = true := by simp [isDue, h]
      simp [List.takeWhile_cons, List.filter_cons, hd, ih hrest]
    · have hd : isDue elapsed e = false := by simp [isDue, h]
      have hall : rest.filter (isDue elapsed) = [] := by
        rw [List.filter_eq_nil_iff]
        intro f hf
        have h1 := he f hf
        simp only [isDue, decide_eq_true_eq]
        omega
      simp [List.takeWhile_cons, List.filter_cons, hd, hall]

theorem dropWhile_isDue_eq_filter (elapsed : ℤ) :
    ∀ l : List (ℤ × α), TsSorted l →
      l.dropWhile (isDue elapsed) = l.filter (fun e => ! isDue elapsed e) := by
  intro l hl
  induction l with
  | nil => rfl
  | cons e rest ih =>
    obtain ⟨he, hrest⟩ := tsSorted_cons hl
    by_cases h : e.1 ≤ elapsed
    · have hd : isDue elapsed e = true := by simp [isDue, h]
      simp [List.dropWhile_cons, List.filter_cons, hd, ih hrest]
    · have hd : isDue elapsed e = false := by simp [isDue, h]
      have hall : rest.filter (fun e => ! isDue elapsed e) = rest := by
        rw [List.filter_eq_self]
        intro f hf
        have h1 := he f hf
        simp only [isDue, Bool.not_eq_true', decide_eq_false_iff_not]
        omega
      simp [List.dropWhile_cons, List.filter_cons, hd, hall]

theorem tsSorted_takeWhile (elapsed : ℤ) {l : List (ℤ × α)} (hl : TsSorted l) :
    TsSorted (l.takeWhile (isDue elapsed)) :=
  (List.Pairwise.sublist (List.takeWhile_sublist _) hl)

theorem tsSorted_dropWhile (elapsed : ℤ) {l : List (ℤ × α)} (hl : TsSorted l) :
    TsSorted (l.dropWhile (isDue elapsed)) :=
  (List.Pairwise.sublist (List.dropWhile_sublist _) hl)

theorem advance_dispatch_append_pending (elapsed : ℤ) (l : List (ℤ × α)) :
    (advance elapsed l).1 ++ (advance elapsed l).2 = l := by
  rw [advance_eq_takeWhile_dropWhile]
  exact List.takeWhile_append_dropWhile (isDue elapsed) l

theorem takeWhile_dropWhile_eq_nil (p : ℤ × α → Bool) (l : List (ℤ × α)) :
    (l.dropWhile p).takeWhile p = [] := by
  induction l with
  | nil => rfl
  | cons e rest ih =>
    by_cases h : p e
    · simp [List.dropWhile_cons, h, ih]
    · simp [List.dropWhile_cons, h, List.takeWhile_cons]

theorem advance_of_dropWhile_empty (elapsed : ℤ) (l : List (ℤ × α)) :
    (advance elapsed (advance elapsed l).2).1 = [] := by
  simp only [advance_eq_takeWhile_dropWhile]
  exact takeWhile_dropWhile_eq_nil _ _

theorem advanceRun_cons (startAnchor c : ℤ) (cs : List ℤ) (pending : List (ℤ × α)) :
    advanceRun startAnchor (c :: cs) pending =
      ((advance (c - startAnchor) pending).1
          :: (advanceRun startAnchor cs (advance (c - startAnchor) pending).2).1,
        (advanceRun startAnchor cs (advance (c - startAnchor) pending).2).2) := rfl

theorem advanceRun_join_append (startAnchor : ℤ) (clocks : List ℤ)
    (pending : List (ℤ × α)) :
    (advanceRun startAnchor clocks pending).1.flatten
      ++ (advanceRun startAnchor clocks pending).2 = pending := by
  induction clocks generalizing pending with
  | nil => simp [advanceRun]
  | cons c cs ih =>
    rw [advanceRun_cons]
    simp only [List.flatten_cons, List.append_assoc]
    rw [ih, advance_dispatch_append_pending]

theorem chain_le_last (a b : ℤ) (l : List ℤ) (hc : List.Chain (· ≤ ·) a l)
    (hb : (a :: l).getLast? = some b) : a ≤ b := by
  induction l generalizing a with
  | nil =>
    simp only [List.getLast?_singleton, Option.some.injEq] at hb
    omega
  | cons x xs ih =>
    rw [List.chain_cons] at hc
    have hb2 : (x :: xs).getLast? = some b := by
      rw [← hb]; exact (List.getLast?_cons_cons ..).symm
    exact le_trans hc.1 (ih x hc.2 hb2)

theorem advanceRun_join_filter (startAnchor : ℤ) :
    ∀ (clocks : List ℤ) (last : ℤ) (pending : List (ℤ × α)),
      clocks.getLast? = some last → clocks.Chain' (· ≤ ·) → TsSorted pending →
      (advanceRun startAnchor clocks pending).1.flatten
        = pending.filter (isDue (last - startAnchor))
      ∧ (advanceRun startAnchor clocks pending).2
        = pending.filter (fun e => ! isDue (last - startAnchor) e) := by
  intro clocks
  induction clocks with
  | nil => intro last pending hlast; simp at hlast
  | cons c cs ih =>
    intro last pending hlast hchain hsorted
    cases cs with
    | nil =>
      simp only [List.getLast?_singleton, Option.some.injEq] at hlast
      subst hlast
      rw [advanceRun_cons]
      simp only [advanceRun, List.flatten_cons, List.flatten_nil, List.append_nil]
      rw [advance_eq_takeWhile_dropWhile]
      exact ⟨takeWhile_isDue_eq_filter _ _ hsorted,
        dropWhile_isDue_eq_filter _ _ hsorted⟩
    | cons c2 cs2 =>
      have hchain2 : List.Chain' (· ≤ ·) (c2 :: cs2) := (List.chain'_cons.mp hchain).2
      have hcc2 : c ≤ c2 := (List.chain'_cons.mp hchain).1
      have hlast2 : (c2 :: cs2).getLast? = some last := by
        rw [← hlast]; exact (List.getLast?_cons_cons ..).symm
      have hrem : TsSorted ((advance (c - startAnchor) pending).2) := by
        rw [advance_eq_takeWhile_dropWhile]
        exact tsSorted_dropWhile _ hsorted
      have ihr := ih last ((advance (c - startAnchor) pending).2) hlast2 hchain2 hrem
      have hcle : c ≤ last :=
        chain_le_last c last (c2 :: cs2)
          (List.chain_cons.mpr ⟨hcc2, hchain2⟩) hlast
      have hfirst : ((advance (c - startAnchor) pending).1).filter
          (isDue (last - startAnchor)) = (advance (c - startAnchor) pending).1 := by
        rw [List.filter_eq_self]
        intro e he
        rw [advance_eq_takeWhile_dropWhile] at he
        have hdue := List.mem_takeWhile_imp he
        simp only [isDue, decide_eq_true_eq] at hdue ⊢
        omega
      have hfirstNone : ((advance (c - startAnchor) pending).1).filter
          (fun e => ! isDue (last - startAnchor) e) = [] := by
        rw [List.filter_eq_nil_iff]
        intro e he
        rw [advance_eq_takeWhile_dropWhile] at he
        have hdue := List.mem_takeWhile_imp he
        simp only [isDue, decide_eq_true_eq, Bool.not_eq_true', decide_eq_false_iff_not,
          not_not] at hdue ⊢
        omega
      constructor
      · rw [advanceRun_cons]
        simp only [List.flatten_cons]
        rw [ihr.1]
        conv_rhs => rw [← advance_dispatch_append_pending (c - startAnchor) pending]
        rw [List.filter_append, hfirst]
      · rw [advanceRun_cons]
        simp only []
        rw [ihr.2]
        conv_rhs => rw [← advance_dispatch_append_pending (c - startAnchor) pending]
        rw [List.filter_append, hfirstNone, List.nil_append]

end Sched

/-- C1: for every loaded timeline sorted ascending by timestamp and every
monotonically non-decreasing sequence of clock values, the per-frame
dispatch loop (a) never returns an event twice — the concatenation of all
dispatched batches followed by the final remaining queue is exactly the
original queue, (b) after the frame at clock `now` the dispatched events
are exactly those with timestamp `≤ now - startAnchor` and the remaining
ones exactly the rest, in particular over a whole monotone run the union
of the batches is exactly the set of events due at the last clock,
(c) dispatched events come out in ascending timestamp order, and
(d) a second dispatch at the same clock value returns no events. -/
theorem scheduler_advance_correct {α : Type} (startAnchor : ℤ)
    (pending : List (ℤ × α)) (hsorted : Sched.TsSorted pending) :
    (∀ clocks : List ℤ,
        (Sched.advanceRun startAnchor clocks pending).1.flatten
          ++ (Sched.advanceRun startAnchor clocks pending).2 = pending)
    ∧ (∀ (clocks : List ℤ) (last : ℤ),
        clocks.getLast? = some last → clocks.Chain' (· ≤ ·) →
        (Sched.advanceRun startAnchor clocks pending).1.flatten
          = pending.filter (Sched.isDue (last - startAnchor))
        ∧ (Sched.advanceRun startAnchor clocks pending).2
          = pending.filter (fun e => ! Sched.isDue (last - startAnchor) e))
    ∧ (∀ now : ℤ, Sched.TsSorted (Sched.advance (now - startAnchor) pending).1)
    ∧ (∀ now : ℤ,
        (Sched.advance (now - startAnchor)
          (Sched.advance (now - startAnchor) pending).2).1 = []) := by
  refine ⟨fun clocks => Sched.advanceRun_join_append startAnchor clocks pending,
    fun clocks last hlast hchain =>
      Sched.advanceRun_join_filter startAnchor clocks last pending hlast hchain hsorted,
    fun now => ?_, fun now => Sched.advance_of_dropWhile_empty _ pending⟩
  rw [Sched.advance_eq_takeWhile_dropWhile]
  exact Sched.tsSorted_takeWhile _ hsorted

/-- Witness for C1, on the spec's own example: timeline at t = 0, 100, 250,
400; one frame at clock 150 dispatches exactly the t = 0 and t = 100 events
in order; a further frame at 150 dispatches nothing; a frame at 500
thereafter dispatches exactly the t = 250 and t = 400 events. -/
theorem scheduler_advance_correct_witness :
    Sched.TsSorted [((0 : ℤ), 0), (100, (1 : ℕ)), (250, 2), (400, 3)]
    ∧ (Sched.advanceRun 0 [150, 150, 500]
        [((0 : ℤ), 0), (100, (1 : ℕ)), (250, 2), (400, 3)]).1
        = [[(0, 0), (100, 1)], [], [(250, 2), (400, 3)]]
    ∧ (Sched.advanceRun 0 [150, 150, 500]
        [((0 : ℤ), 0), (100, (1 : ℕ)), (250, 2), (400, 3)]).1.flatten
        ++ (Sched.advanceRun 0 [150, 150, 500]
        [((0 : ℤ), 0), (100, (1 : ℕ)), (250, 2), (400, 3)]).2
        = [((0 : ℤ), 0), (100, (1 : ℕ)), (250, 2), (400, 3)] := by
  have hs : Sched.TsSorted [((0 : ℤ), 0), (100, (1 : ℕ)), (250, 2), (400, 3)] := by
    unfold Sched.TsSorted
    decide
  refine ⟨hs, by decide,
    (scheduler_advance_correct 0 _ hs).1 [150, 150, 500]⟩

/-! ## Shared grid utilities -/

/-- The 8 neighbor offsets, in the order `dr ∈ [-1,0,1], dc ∈ [-1,0,1]`
skipping `(0,0)`, as both `count_neighbors` loops produce them. -/
def neighborOffsets : List (ℤ × ℤ) :=
  [(-1, -1), (-1, 0), (-1, 1), (0, -1), (0, 1), (1, -1), (1, 0), (1, 1)]

/-- Functional update at one coordinate: the meaning of a single
`arr[r][c] = v` statement on an array-of-arrays. -/
def upd2 {β : Type} (g : ℤ → ℤ → β) (p : ℤ × ℤ) (v : β) : ℤ → ℤ → β :=
  fun r c => if r = p.1 ∧ c = p.2 then v else g r c

/-- Row-major iteration order `for r in range(rows): for c in range(cols)`. -/
def rowMajor (rows cols : ℕ) : List (ℤ × ℤ) :=
  (List.range rows).flatMap
    (fun (r : ℕ) => (List.range cols).map (fun (c : ℕ) => ((r : ℤ), (c : ℤ))))

theorem upd2_same {β : Type} (g : ℤ → ℤ → β) (p : ℤ × ℤ) (v : β) :
    upd2 g p v p.1 p.2 = v := by
  simp [upd2]

theorem upd2_other {β : Type} (g : ℤ → ℤ → β) (p q : ℤ × ℤ) (v : β)
    (h : q ≠ p) : upd2 g p v q.1 q.2 = g q.1 q.2 := by
  have hne : ¬ (q.1 = p.1 ∧ q.2 = p.2) := by
    intro hc
    exact h (Prod.ext hc.1 hc.2)
  simp [upd2, hne]

theorem mem_rowMajor (rows cols : ℕ) (p : ℤ × ℤ) :
    p ∈ rowMajor rows cols ↔
      0 ≤ p.1 ∧ p.1 < (rows : ℤ) ∧ 0 ≤ p.2 ∧ p.2 < (cols : ℤ) := by
  obtain ⟨r, c⟩ := p
  constructor
  · intro h
    rw [rowMajor, List.mem_flatMap] at h
    obtain ⟨a, ha, hmem⟩ := h
    rw [List.mem_map] at hmem
    obtain ⟨b, hb, heq⟩ := hmem
    rw [List.mem_range] at ha
    rw [List.mem_range] at hb
    rw [Prod.mk.injEq] at heq
    obtain ⟨h1, h2⟩ := heq
    subst h1; subst h2
    refine ⟨by omega, by omega, by omega, by omega⟩
  · rintro ⟨h1, h2, h3, h4⟩
    rw [rowMajor, List.mem_flatMap]
    refine ⟨r.toNat, ?_, ?_⟩
    · rw [List.mem_range]; omega
    · rw [List.mem_map]
      refine ⟨c.toNat, ?_, ?_⟩
      · rw [List.mem_range]; omega
      · rw [Prod.mk.injEq]
        constructor
        · omega
        · omega

theorem rowMajor_nodup (rows cols : ℕ) : (rowMajor rows cols).Nodup := by
  rw [rowMajor, List.nodup_flatMap]
  constructor
  · intro r _
    refine List.Nodup.map ?_ (List.nodup_range cols)
    intro a b h
    rw [Prod.mk.injEq] at h
    exact_mod_cast h.2
  · refine (List.pairwise_lt_range rows).imp ?_
    intro a b hab
    simp only [Function.onFun, List.disjoint_left]
    intro p hp hq
    simp only [List.mem_map, List.mem_range] at hp hq
    obtain ⟨c1, _, h1⟩ := hp
    obtain ⟨c2, _, h2⟩ := hq
    rw [← h2, Prod.mk.injEq] at h1
    have h3 : a = b := by exact_mod_cast h1.1
    omega

/-! ## Core embedding of `main.py` -/

namespace MainPy

/-- An RGBA color with integer channels (Python ints in 0..255). -/
abbrev Color := ℤ × ℤ × ℤ × ℤ

/-- A live cell dictionary: `{"color": .., "offset": .., "scale": ..}`. -/
structure Cell where
  color : Color
  offset : ℚ
  scale : ℚ
deriving DecidableEq

/-- A grid row-indexed then column-indexed; `none` is an empty cell. -/
abbrev Grid := ℤ → ℤ → Option Cell

/-- `create_grid(rows, cols)`: all cells empty. -/
def emptyGrid : Grid := fun _ _ => none

/-- The base ROYGBIV palette (RGB tuples). -/
def ROYGBIV : List (ℤ × ℤ × ℤ) :=
  [(255, 64, 64), (255, 165, 64), (255, 255, 64), (64, 255, 64),
   (64, 64, 255), (138, 43, 226), (186, 85, 211)]

/-- `random.choice(ROYGBIV) + (255,)`: append a full alpha channel. -/
def rgba (c : ℤ × ℤ × ℤ) : Color := (c.1, c.2.1, c.2.2, 255)

def WAR_THRESHOLD : ℚ := 2 / 10

def WAR_PROBABILITY : ℚ := 5 / 10

def GRID_COLS : ℕ := 96 * 2

def GRID_ROWS : ℕ := 54 * 2

/-- `TRANSITION_FRAMES = int(FPS * TRANSITION_DURATION) = int(60 * 0.5)`. -/
def TRANSITION_FRAMES : ℕ := 30

/-- Python's `int(...)` on a float: truncation toward zero. -/
def pyInt (q : ℚ) : ℤ := if 0 ≤ q then ⌊q⌋ else ⌈q⌉

/-- The global random stream: `random.random()` reads the value under the
cursor `k` and advances the cursor. -/
def pyRandom (rng : ℕ → ℚ) (k : ℕ) : ℚ × ℕ := (rng k, k + 1)

/-- `random.choice(seq)`: one draw `x` selects index `int(len(seq)·x)`. -/
def pyChoice {β : Type} [Inhabited β] (rng : ℕ → ℚ) (k : ℕ) (l : List β) : β × ℕ :=
  (l.getD (Int.toNat ⌊(l.length : ℚ) * rng k⌋) default, k + 1)

/-- `random.uniform(a, b) = a + (b - a) * random.random()`. -/
def pyUniform (rng : ℕ → ℚ) (k : ℕ) (a b : ℚ) : ℚ × ℕ :=
  (a + (b - a) * rng k, k + 1)

/-- `random.randint(a, b)`: one draw selects an integer in `[a, b]`. -/
def pyRandInt (rng : ℕ → ℚ) (k : ℕ) (a b : ℤ) : ℤ × ℕ :=
  (a + ⌊((b - a + 1 : ℤ) : ℚ) * rng k⌋, k + 1)

/-- The bounds check `0 <= r < GRID_ROWS and 0 <= c < GRID_COLS`. -/
def inB (rows cols : ℕ) (r c : ℤ) : Bool :=
  decide (0 ≤ r) && decide (r < (rows : ℤ)) && decide (0 ≤ c) && decide (c < (cols : ℤ))

/-- `count_neighbors(r, c, grid)`: the 8 surrounding cells, clamped at the
boundary (out-of-range neighbors simply do not count). -/
def countNeighbors (rows cols : ℕ) (g : Grid) (r c : ℤ) : ℕ :=
  (neighborOffsets.filter (fun d =>
    inB rows cols (r + d.1) (c + d.2) && (g (r + d.1) (c + d.2)).isSome)).length

/-- The two arrays the imperative update loops manipulate: `grid` (the
function's input, only ever read) and `new_grid` (only ever written). -/
structure Store where
  grid : Grid
  newGrid : Grid

/-- The freshly drawn cell of a birth: `random.choice(ROYGBIV) + (255,)`,
`random.random()` for the offset, `random.uniform(0.5, 1.5)` for the scale. -/
def bornCell (rng : ℕ → ℚ) (k : ℕ) : Cell × ℕ :=
  let ch := pyChoice rng k ROYGBIV
  let off := pyRandom rng ch.2
  let sc := pyUniform rng off.2 (5 / 10) (15 / 10)
  (⟨rgba ch.1, off.1, sc.1⟩, sc.2)

/-- One iteration of the `update_logic` double loop at coordinate `p`:
reads the store's `grid`, writes the store's `new_grid`. -/
def lifeStep (rows cols : ℕ) (rng : ℕ → ℚ) (st : Store × ℕ) (p : ℤ × ℤ) : Store × ℕ :=
  let n := countNeighbors rows cols st.1.grid p.1 p.2
  match st.1.grid p.1 p.2 with
  | some cell =>
    (⟨st.1.grid, upd2 st.1.newGrid p (if n = 2 ∨ n = 3 then some cell else none)⟩, st.2)
  | none =>
    if n = 3 then
      let b := bornCell rng st.2
      (⟨st.1.grid, upd2 st.1.newGrid p (some b.1)⟩, b.2)
    else
      (⟨st.1.grid, upd2 st.1.newGrid p none⟩, st.2)

/-- The birth/survival stage of `update_logic` (everything before the
`apply_war_rules` call): `new_grid` starts out as `create_grid(...)`. -/
def lifePass (rows cols : ℕ) (rng : ℕ → ℚ) (k : ℕ) (g : Grid) : Store × ℕ :=
  (rowMajor rows cols).foldl (lifeStep rows cols rng) (⟨g, emptyGrid⟩, k)

/-- The body of the innermost `apply_war_rules` loop, at cell `p` (holding
`cell`) and neighbor offset `d`: if the neighbor coordinate is in bounds
and holds a cell whose offset exceeds `cell`'s by more than
`WAR_THRESHOLD`, draw once and, when the draw is `< WAR_PROBABILITY`,
overwrite `new_grid[r][c]` with a copy of that neighbor. -/
def warNb (rows cols : ℕ) (rng : ℕ → ℚ) (p : ℤ × ℤ) (cell : Cell)
    (acc : Store × ℕ) (d : ℤ × ℤ) : Store × ℕ :=
  if inB rows cols (p.1 + d.1) (p.2 + d.2) then
    match acc.1.grid (p.1 + d.1) (p.2 + d.2) with
    | some nb =>
      if nb.offset - cell.offset > WAR_THRESHOLD then
        if (pyRandom rng acc.2).1 < WAR_PROBABILITY then
          (⟨acc.1.grid, upd2 acc.1.newGrid p (some nb)⟩, (pyRandom rng acc.2).2)
        else
          (acc.1, (pyRandom rng acc.2).2)
      else acc
    | none => acc
  else acc

/-- One iteration of the `apply_war_rules` double loop at coordinate `p`:
for a live cell, scan the 8 neighbors in offset order against the *input*
grid. -/
def warStep (rows cols : ℕ) (rng : ℕ → ℚ) (st : Store × ℕ) (p : ℤ × ℤ) : Store × ℕ :=
  match st.1.grid p.1 p.2 with
  | none => st
  | some cell => neighborOffsets.foldl (warNb rows cols rng p cell) st

/-- `apply_war_rules(grid)`: `new_grid` starts as a row-by-row copy of the
input and all reads go against the input snapshot. -/
def applyWarRules (rows cols : ℕ) (rng : ℕ → ℚ) (k : ℕ) (g : Grid) : Store × ℕ :=
  (rowMajor rows cols).foldl (warStep rows cols rng) (⟨g, g⟩, k)

/-- `update_logic(grid)`: the birth/survival pass followed by
`apply_war_rules` on its result; returns the new grid and the advanced
random cursor. -/
def updateLogic (rows cols : ℕ) (rng : ℕ → ℚ) (k : ℕ) (g : Grid) : Grid × ℕ :=
  let lp := lifePass rows cols rng k g
  let wp := applyWarRules rows cols rng lp.2 lp.1.newGrid
  (wp.1.newGrid, wp.2)

/-- `lerp_color(c1, c2, t)`: per-channel `int(c1[i] + (c2[i] - c1[i]) * t)`. -/
def lerpColor (c1 c2 : Color) (t : ℚ) : Color :=
  (pyInt ((c1.1 : ℚ) + ((c2.1 : ℚ) - (c1.1 : ℚ)) * t),
   pyInt ((c1.2.1 : ℚ) + ((c2.2.1 : ℚ) - (c1.2.1 : ℚ)) * t),
   pyInt ((c1.2.2.1 : ℚ) + ((c2.2.2.1 : ℚ) - (c1.2.2.1 : ℚ)) * t),
   pyInt ((c1.2.2.2 : ℚ) + ((c2.2.2.2 : ℚ) - (c1.2.2.2 : ℚ)) * t))

/-- `lerp_cell(cell1, cell2, t)`: `None` if both empty, the non-empty one
if exactly one is empty, otherwise interpolate the color and take offset
and scale from `cell1`. -/
def lerpCell (cell1 cell2 : Option Cell) (t : ℚ) : Option Cell :=
  match cell1, cell2 with
  | none, none => none
  | none, some c2 => some c2
  | some c1, none => some c1
  | some c1, some c2 => some ⟨lerpColor c1.color c2.color t, c1.offset, c1.scale⟩

/-- The alpha channel of an optional cell (empty cells are transparent). -/
def alphaOf (c : Option Cell) : ℤ :=
  match c with
  | none => 0
  | some cell => cell.color.2.2.2

/-- The column `add_piece_to_board` maps a note to. -/
def pieceCol (cols : ℕ) (note : ℤ) : ℤ :=
  let clamped := max 21 (min note 108)
  pyInt ((((clamped : ℚ) - 21) / ((108 : ℚ) - 21)) * ((cols : ℚ) - 3))

/-- The row `add_piece_to_board` maps a velocity to. -/
def pieceRow (rows : ℕ) (velocity : ℤ) : ℤ :=
  pyInt (((velocity : ℚ) / 127) * ((rows : ℚ) - 3))

/-- The fresh cell `add_piece_to_board` writes: a palette color, a random
offset, and a velocity-determined scale `0.5 + velocity / 127`. -/
def pieceCell (rng : ℕ → ℚ) (k : ℕ) (velocity : ℤ) : Cell × ℕ :=
  let ch := pyChoice rng k ROYGBIV
  let off := pyRandom rng ch.2
  (⟨rgba ch.1, off.1, 5 / 10 + (velocity : ℚ) / 127⟩, off.2)

/-- The `for dr in range(3): for dc in range(3)` offsets. -/
def threeByThree : List (ℤ × ℤ) :=
  [(0, 0), (0, 1), (0, 2), (1, 0), (1, 1), (1, 2), (2, 0), (2, 1), (2, 2)]

/-- The `for dr in range(3): for dc in range(3)` write loop of
`add_piece_to_board`: each single write is guarded by the bounds check
`0 <= r < GRID_ROWS and 0 <= c < GRID_COLS`; a guarded-out write is
silently skipped. -/
def writeBlock (rows cols : ℕ) (row col : ℤ) (v : Option Cell)
    (l : List (ℤ × ℤ)) (g : Grid) : Grid :=
  l.foldl (fun acc d =>
    if inB rows cols (row + d.1) (col + d.2) then
      upd2 acc (row + d.1, col + d.2) v
    else acc) g

/-- `add_piece_to_board(note, velocity)`: write a 3x3 block of the fresh
cell at the mapped position. -/
def addPieceToBoard (rows cols : ℕ) (rng : ℕ → ℚ) (k : ℕ) (note velocity : ℤ)
    (g : Grid) : Grid × ℕ :=
  let nc := pieceCell rng k velocity
  (writeBlock rows cols (pieceRow rows velocity) (pieceCol cols note) (some nc.1)
    threeByThree g,
   nc.2)

end MainPy

/-! ## `pitch_shift` (`main.py`, lines 269-275) -/

namespace MainPy

theorem pyInt_intCast (z : ℤ) : pyInt ((z : ℤ) : ℚ) = z := by
  unfold pyInt
  split
  · exact Int.floor_intCast z
  · exact Int.ceil_intCast z

theorem pyInt_of_nonneg (q : ℚ) (h : 0 ≤ q) : pyInt q = ⌊q⌋ := by
  simp [pyInt, h]

end MainPy

namespace Pitch

/-- `np.interp(x, xp, fp)` with `xp = arange(len)`: clamp below the first
and above the last sample point, linearly interpolate in between. -/
def npInterp (fp : ℕ → ℚ) (len : ℕ) (x : ℚ) : ℚ :=
  if x ≤ 0 then fp 0
  else if ((len : ℚ) - 1) ≤ x then fp (len - 1)
  else
    fp (Int.toNat ⌊x⌋)
      + (fp (Int.toNat ⌊x⌋ + 1) - fp (Int.toNat ⌊x⌋)) * (x - (⌊x⌋ : ℚ))

/-- `pitch_shift(sound_array, factor)`: `num_samples = int(len / factor)`;
output sample `n` of a channel is `np.interp(n * factor, ...)` cast back
to the integer sample dtype (truncation).  The input is a two-dimensional
array `a : sample index → channel → value`; the channel count is untouched
(every channel of the output is defined from the same channel of the
input). -/
def pitchShift (L : ℕ) (factor : ℚ) (a : ℕ → ℕ → ℤ) : ℕ × (ℕ → ℕ → ℤ) :=
  let numSamples := Int.toNat (MainPy.pyInt ((L : ℚ) / factor))
  (numSamples,
   fun n ch => MainPy.pyInt (npInterp (fun i => ((a i ch : ℤ) : ℚ)) L ((n : ℚ) * factor)))

theorem npInterp_natCast (fp : ℕ → ℚ) (len : ℕ) (n : ℕ) (h : n < len) :
    npInterp fp len (n : ℚ) = fp n := by
  unfold npInterp
  by_cases h0 : (n : ℚ) ≤ 0
  · have hn : n = 0 := by exact_mod_cast le_antisymm h0 (Nat.cast_nonneg n)
    simp [h0, hn]
  · rw [if_neg h0]
    by_cases h1 : ((len : ℚ) - 1) ≤ (n : ℚ)
    · have hn : n = len - 1 := by
        have h2 : (len : ℚ) ≤ (n : ℚ) + 1 := by linarith
        have h3 : len ≤ n + 1 := by exact_mod_cast h2
        omega
      rw [if_pos h1, hn]
    · rw [if_neg h1]
      rw [Int.floor_natCast]
      simp
end Pitch

/-- C7: `pitch_shift` on a sample array of length `L ≥ 1` with positive
factor `f` returns an array of length `⌊L / f⌋` over the same channels;
with factor 1 the output equals the input exactly; with factor 2 the
output has length `L / 2` and output sample `n` equals input sample `2n`
exactly (the sampled positions are integer indices). -/
theorem pitch_shift_correct (L : ℕ) (f : ℚ) (a : ℕ → ℕ → ℤ)
    (hL : 1 ≤ L) (hf : 0 < f) :
    (Pitch.pitchShift L f a).1 = Nat.floor ((L : ℚ) / f)
    ∧ (f = 1 → (Pitch.pitchShift L f a).1 = L
        ∧ ∀ n ch, n < L → (Pitch.pitchShift L f a).2 n ch = a n ch)
    ∧ (f = 2 → (Pitch.pitchShift L f a).1 = L / 2
        ∧ ∀ n ch, n < L / 2 → (Pitch.pitchShift L f a).2 n ch = a (2 * n) ch) := by
  have hlen : (Pitch.pitchShift L f a).1 = Nat.floor ((L : ℚ) / f) := by
    show Int.toNat (MainPy.pyInt ((L : ℚ) / f)) = Nat.floor ((L : ℚ) / f)
    rw [MainPy.pyInt_of_nonneg _ (by positivity)]
    exact Int.floor_toNat _
  refine ⟨hlen, ?_, ?_⟩
  · rintro rfl
    constructor
    · rw [hlen]; simp
    · intro n ch hn
      show MainPy.pyInt (Pitch.npInterp (fun i => ((a i ch : ℤ) : ℚ)) L ((n : ℚ) * 1))
        = a n ch
      rw [mul_one, Pitch.npInterp_natCast _ _ _ hn]
      exact MainPy.pyInt_intCast _
  · rintro rfl
    constructor
    · rw [hlen]
      have h := Nat.floor_div_eq_div (α := ℚ) L 2
      simpa using h
    · intro n ch hn
      show MainPy.pyInt (Pitch.npInterp (fun i => ((a i ch : ℤ) : ℚ)) L ((n : ℚ) * 2))
        = a (2 * n) ch
      have h2 : ((n : ℚ) * 2) = ((2 * n : ℕ) : ℚ) := by push_cast; ring
      have hlt : 2 * n < L := by omega
      rw [h2, Pitch.npInterp_natCast _ _ _ hlt]
      exact MainPy.pyInt_intCast _

/-- Witness for C7 at `L = 4`, `f = 2`, the sample array `a n ch = n`:
output length 2, and output sample 1 is input sample 2. -/
theorem pitch_shift_correct_witness :
    (Pitch.pitchShift 4 2 (fun n _ => (n : ℤ))).1 = 2
    ∧ (Pitch.pitchShift 4 2 (fun n _ => (n : ℤ))).2 1 0 = 2 := by
  have h := pitch_shift_correct 4 2 (fun n _ => (n : ℤ)) (by norm_num) (by norm_num)
  refine ⟨(h.2.2 rfl).1, ?_⟩
  have h2 := (h.2.2 rfl).2 1 0 (by norm_num)
  simpa using h2

/-! ## `lerp_cell` (`main.py`, lines 77-90) -/

/-- A concrete fully opaque red cell. -/
def aCellRed : MainPy.Cell := ⟨(255, 64, 64, 255), 0, 1⟩

/-- C6 counterexample: `lerp_cell(A, None, t)` returns `A` itself, so at
`t = 1` the result is still fully opaque (alpha 255) and the alpha at
`t = 1` is not below the alpha at `t = 0` — the alpha does not
monotonically decrease toward transparent as `t → 1`. -/
theorem lerp_cell_fade_counterexample :
    MainPy.lerpCell (some aCellRed) none 1 = some aCellRed
    ∧ MainPy.alphaOf (MainPy.lerpCell (some aCellRed) none 1) = 255
    ∧ ¬ MainPy.alphaOf (MainPy.lerpCell (some aCellRed) none 1)
        < MainPy.alphaOf (MainPy.lerpCell (some aCellRed) none 0) := by
  refine ⟨rfl, rfl, ?_⟩
  decide

/-- C6 (amended): `lerp_cell` with exactly one empty argument never
raises — it is total and returns the non-empty cell unchanged for every
`t`; in particular the alpha of `blend(A, None, t)` is constant (equal to
A's alpha, not fading), and offset and scale stay those of `A`. -/
theorem lerp_cell_one_empty (c : MainPy.Cell) (t : ℚ) :
    MainPy.lerpCell (some c) none t = some c
    ∧ MainPy.lerpCell none (some c) t = some c
    ∧ MainPy.lerpCell none none t = none
    ∧ MainPy.alphaOf (MainPy.lerpCell (some c) none t) = MainPy.alphaOf (some c) :=
  ⟨rfl, rfl, rfl, rfl⟩

/-! ## Pointwise characterization of the two automaton passes -/

namespace MainPy

/-- The value the `update_logic` loop writes at coordinate `p`, given the
input grid and the random cursor, together with the advanced cursor. -/
def lifeVal (rows cols : ℕ) (rng : ℕ → ℚ) (k : ℕ) (g : Grid) (p : ℤ × ℤ) :
    Option Cell × ℕ :=
  let n := countNeighbors rows cols g p.1 p.2
  match g p.1 p.2 with
  | some cell => (if n = 2 ∨ n = 3 then some cell else none, k)
  | none =>
    if n = 3 then (some (bornCell rng k).1, (bornCell rng k).2) else (none, k)

theorem lifeStep_eq (rows cols : ℕ) (rng : ℕ → ℚ) (st : Store × ℕ) (p : ℤ × ℤ) :
    lifeStep rows cols rng st p =
      (⟨st.1.grid, upd2 st.1.newGrid p (lifeVal rows cols rng st.2 st.1.grid p).1⟩,
        (lifeVal rows cols rng st.2 st.1.grid p).2) := by
  unfold lifeStep lifeVal
  cases h : st.1.grid p.1 p.2 with
  | none =>
    simp only [h]
    split
    · rfl
    · rfl
  | some cell => simp only [h]

theorem lifeFold_grid (rows cols : ℕ) (rng : ℕ → ℚ) :
    ∀ (l : List (ℤ × ℤ)) (st : Store × ℕ),
      (l.foldl (lifeStep rows cols rng) st).1.grid = st.1.grid := by
  intro l
  induction l with
  | nil => intro st; rfl
  | cons p rest ih =>
    intro st
    rw [List.foldl_cons, ih, lifeStep_eq]

theorem lifeFold_newGrid_not_mem (rows cols : ℕ) (rng : ℕ → ℚ) :
    ∀ (l : List (ℤ × ℤ)) (st : Store × ℕ) (q : ℤ × ℤ), q ∉ l →
      (l.foldl (lifeStep rows cols rng) st).1.newGrid q.1 q.2
        = st.1.newGrid q.1 q.2 := by
  intro l
  induction l with
  | nil => intro st q _; rfl
  | cons p rest ih =>
    intro st q hq
    rw [List.mem_cons] at hq
    push_neg at hq
    rw [List.foldl_cons, ih _ _ hq.2, lifeStep_eq]
    exact upd2_other _ _ _ _ hq.1

theorem lifeFold_newGrid_mem (rows cols : ℕ) (rng : ℕ → ℚ) :
    ∀ (l : List (ℤ × ℤ)) (st : Store × ℕ) (q : ℤ × ℤ), l.Nodup → q ∈ l →
      ∃ j, (l.foldl (lifeStep rows cols rng) st).1.newGrid q.1 q.2
        = (lifeVal rows cols rng j st.1.grid q).1 := by
  intro l
  induction l with
  | nil => intro st q _ hq; exact absurd hq (List.not_mem_nil q)
  | cons p rest ih =>
    intro st q hnd hq
    rw [List.nodup_cons] at hnd
    rw [List.mem_cons] at hq
    rcases hq with hq | hq
    · subst hq
      refine ⟨st.2, ?_⟩
      rw [List.foldl_cons, lifeFold_newGrid_not_mem _ _ _ _ _ _ hnd.1, lifeStep_eq]
      exact upd2_same _ _ _
    · obtain ⟨j, hj⟩ := ih (lifeStep rows cols rng st p) q hnd.2 hq
      refine ⟨j, ?_⟩
      rw [List.foldl_cons, hj, lifeStep_eq]

/-- Pointwise description of the birth/survival pass: at every coordinate
of the iteration domain the produced grid holds `lifeVal` of the input
grid at that coordinate, for some random cursor. -/
theorem lifePass_spec (rows cols : ℕ) (rng : ℕ → ℚ) (k : ℕ) (g : Grid)
    (q : ℤ × ℤ) (hq : q ∈ rowMajor rows cols) :
    ∃ j, (lifePass rows cols rng k g).1.newGrid q.1 q.2
      = (lifeVal rows cols rng j g q).1 :=
  lifeFold_newGrid_mem rows cols rng (rowMajor rows cols) (⟨g, emptyGrid⟩, k) q
    (rowMajor_nodup rows cols) hq

theorem lifePass_grid (rows cols : ℕ) (rng : ℕ → ℚ) (k : ℕ) (g : Grid) :
    (lifePass rows cols rng k g).1.grid = g :=
  lifeFold_grid rows cols rng (rowMajor rows cols) (⟨g, emptyGrid⟩, k)

theorem warNb_grid (rows cols : ℕ) (rng : ℕ → ℚ) (p : ℤ × ℤ) (cell : Cell)
    (acc : Store × ℕ) (d : ℤ × ℤ) :
    (warNb rows cols rng p cell acc d).1.grid = acc.1.grid := by
  unfold warNb
  split
  · split
    · split
      · split
        · rfl
        · rfl
      · rfl
    · rfl
  · rfl

theorem warNb_newGrid (rows cols : ℕ) (rng : ℕ → ℚ) (p : ℤ × ℤ) (cell : Cell)
    (acc : Store × ℕ) (d : ℤ × ℤ) (q : ℤ × ℤ) :
    (warNb rows cols rng p cell acc d).1.newGrid q.1 q.2 = acc.1.newGrid q.1 q.2
    ∨ (q = p ∧ ((warNb rows cols rng p cell acc d).1.newGrid q.1 q.2).isSome) := by
  unfold warNb
  split
  · split
    · split
      · split
        · by_cases hq : q = p
          · subst hq
            right
            exact ⟨rfl, by simp [upd2_same]⟩
          · left
            exact upd2_other _ _ _ _ hq
        · left; rfl
      · left; rfl
    · left; rfl
  · left; rfl

theorem warInner_grid (rows cols : ℕ) (rng : ℕ → ℚ) (p : ℤ × ℤ) (cell : Cell) :
    ∀ (offs : List (ℤ × ℤ)) (acc : Store × ℕ),
      (offs.foldl (warNb rows cols rng p cell) acc).1.grid = acc.1.grid := by
  intro offs
  induction offs with
  | nil => intro acc; rfl
  | cons d rest ih =>
    intro acc
    rw [List.foldl_cons, ih, warNb_grid]

theorem warInner_newGrid (rows cols : ℕ) (rng : ℕ → ℚ) (p : ℤ × ℤ) (cell : Cell) :
    ∀ (offs : List (ℤ × ℤ)) (acc : Store × ℕ) (q : ℤ × ℤ),
      (offs.foldl (warNb rows cols rng p cell) acc).1.newGrid q.1 q.2
          = acc.1.newGrid q.1 q.2
      ∨ (q = p ∧ ((offs.foldl (warNb rows cols rng p cell) acc).1.newGrid q.1 q.2).isSome) := by
  intro offs
  induction offs with
  | nil => intro acc q; left; rfl
  | cons d rest ih =>
    intro acc q
    rw [List.foldl_cons]
    rcases ih (warNb rows cols rng p cell acc d) q with h | h
    · rcases warNb_newGrid rows cols rng p cell acc d q with h2 | h2
      · left; rw [h, h2]
      · right
        exact ⟨h2.1, h ▸ h2.2⟩
    · right; exact h

theorem warStep_grid (rows cols : ℕ) (rng : ℕ → ℚ) (st : Store × ℕ) (p : ℤ × ℤ) :
    (warStep rows cols rng st p).1.grid = st.1.grid := by
  unfold warStep
  cases h : st.1.grid p.1 p.2 with
  | none => rfl
  | some cell => exact warInner_grid rows cols rng p cell neighborOffsets st

theorem warStep_newGrid (rows cols : ℕ) (rng : ℕ → ℚ) (st : Store × ℕ)
    (p : ℤ × ℤ) (q : ℤ × ℤ) :
    (warStep rows cols rng st p).1.newGrid q.1 q.2 = st.1.newGrid q.1 q.2
    ∨ ((st.1.grid q.1 q.2).isSome
        ∧ ((warStep rows cols rng st p).1.newGrid q.1 q.2).isSome) := by
  unfold warStep
  cases h : st.1.grid p.1 p.2 with
  | none => left; rfl
  | some cell =>
    rcases warInner_newGrid rows cols rng p cell neighborOffsets st q with h2 | h2
    · left; exact h2
    · right
      obtain ⟨hq, hs⟩ := h2
      subst hq
      rw [h]
      exact ⟨rfl, hs⟩

theorem warFold_newGrid (rows cols : ℕ) (rng : ℕ → ℚ) :
    ∀ (l : List (ℤ × ℤ)) (st : Store × ℕ) (q : ℤ × ℤ),
      (l.foldl (warStep rows cols rng) st).1.newGrid q.1 q.2
          = st.1.newGrid q.1 q.2
      ∨ ((st.1.grid q.1 q.2).isSome
          ∧ ((l.foldl (warStep rows cols rng) st).1.newGrid q.1 q.2).isSome) := by
  intro l
  induction l with
  | nil => intro st q; left; rfl
  | cons p rest ih =>
    intro st q
    rw [List.foldl_cons]
    rcases ih (warStep rows cols rng st p) q with h | h
    · rcases warStep_newGrid rows cols rng st p q with h2 | h2
      · left; rw [h, h2]
      · right; exact ⟨h2.1, h ▸ h2.2⟩
    · right
      rw [warStep_grid] at h
      exact h

theorem warFold_grid (rows cols : ℕ) (rng : ℕ → ℚ) :
    ∀ (l : List (ℤ × ℤ)) (st : Store × ℕ),
      (l.foldl (warStep rows cols rng) st).1.grid = st.1.grid := by
  intro l
  induction l with
  | nil => intro st; rfl
  | cons p rest ih =>
    intro st
    rw [List.foldl_cons, ih, warStep_grid]

theorem applyWarRules_grid (rows cols : ℕ) (rng : ℕ → ℚ) (k : ℕ) (g : Grid) :
    (applyWarRules rows cols rng k g).1.grid = g :=
  warFold_grid rows cols rng (rowMajor rows cols) (⟨g, g⟩, k)

/-- `apply_war_rules` either leaves a coordinate's copied value alone or
overwrites a coordinate that is live in its input with a live value. -/
theorem applyWarRules_pointwise (rows cols : ℕ) (rng : ℕ → ℚ) (k : ℕ)
    (g : Grid) (q : ℤ × ℤ) :
    (applyWarRules rows cols rng k g).1.newGrid q.1 q.2 = g q.1 q.2
    ∨ ((g q.1 q.2).isSome
        ∧ ((applyWarRules rows cols rng k g).1.newGrid q.1 q.2).isSome) :=
  warFold_newGrid rows cols rng (rowMajor rows cols) (⟨g, g⟩, k) q

theorem applyWarRules_isSome (rows cols : ℕ) (rng : ℕ → ℚ) (k : ℕ)
    (g : Grid) (q : ℤ × ℤ) :
    ((applyWarRules rows cols rng k g).1.newGrid q.1 q.2).isSome
      = (g q.1 q.2).isSome := by
  rcases applyWarRules_pointwise rows cols rng k g q with h | h
  · rw [h]
  · rw [h.1, h.2]

end MainPy

/-- C10: the conflict (war) pass preserves the alive/dead pattern: for
every input grid and coordinate, the output cell is non-empty iff the
input cell is, and any coordinate whose value the pass changed was
already live in the input (so the pass only replaces attributes of live
cells, and never births or kills a cell). -/
theorem war_pass_preserves_pattern (rows cols : ℕ) (rng : ℕ → ℚ) (k : ℕ)
    (g : MainPy.Grid) (r c : ℤ) :
    (((MainPy.applyWarRules rows cols rng k g).1.newGrid r c).isSome
      = (g r c).isSome)
    ∧ ((MainPy.applyWarRules rows cols rng k g).1.newGrid r c ≠ g r c
        → (g r c).isSome
          ∧ ((MainPy.applyWarRules rows cols rng k g).1.newGrid r c).isSome) := by
  constructor
  · exact MainPy.applyWarRules_isSome rows cols rng k g (r, c)
  · intro hne
    rcases MainPy.applyWarRules_pointwise rows cols rng k g (r, c) with h | h
    · exact absurd h hne
    · exact h

/-- C3 counterexample: a 1x4 row of live cells; the cell at (0,1) has
exactly 2 live neighbors and survives the birth/survival stage, but the
war pass inside `update_logic` makes it adopt its neighbor's attributes,
so it does not keep an identical color in the step's output. -/
def warCellA : MainPy.Cell := ⟨(255, 64, 64, 255), 0, 1⟩

/-- The neighbor with a phase offset ahead by more than `WAR_THRESHOLD`. -/
def warCellB : MainPy.Cell := ⟨(64, 64, 255, 255), 5 / 10, 1⟩

/-- The concrete 1x4 all-live row. -/
def warRowGrid : MainPy.Grid := fun r c =>
  if r = 0 ∧ c = 2 then some warCellB
  else if r = 0 ∧ (0 ≤ c ∧ c ≤ 3) then some warCellA
  else none

/-- C3 counterexample theorem: with the all-zero random stream, the live
cell at (0,1) of `warRowGrid` has exactly 2 live neighbors, yet
`update_logic` returns it with `warCellB`'s attributes, not an identical
color. -/
theorem life_survivor_color_counterexample :
    warRowGrid 0 1 = some warCellA
    ∧ MainPy.countNeighbors 1 4 warRowGrid 0 1 = 2
    ∧ (MainPy.updateLogic 1 4 (fun _ => 0) 0 warRowGrid).1 0 1 = some warCellB
    ∧ warCellB.color ≠ warCellA.color := by
  refine ⟨rfl, by decide, by decide, by decide⟩

/-- C3 (amended): under the classic rule of `update_logic` (birth 3,
survive {2,3}), at every in-range coordinate: a live cell with exactly 2
or 3 live neighbors survives the birth/survival stage with identical
attributes and is still live in the step's final output (though the
subsequent war pass may have replaced its attributes); a live cell with
any other count is dead in the final output; a dead cell with exactly 3
live neighbors is born (live in the final output); a dead cell with any
other count stays dead. -/
theorem life_rule_correct (rows cols : ℕ) (rng : ℕ → ℚ) (k : ℕ)
    (g : MainPy.Grid) (r c : ℤ) (hin : (r, c) ∈ rowMajor rows cols) :
    (∀ cell, g r c = some cell →
      (MainPy.countNeighbors rows cols g r c = 2
          ∨ MainPy.countNeighbors rows cols g r c = 3) →
        (MainPy.lifePass rows cols rng k g).1.newGrid r c = some cell
        ∧ ((MainPy.updateLogic rows cols rng k g).1 r c).isSome)
    ∧ (∀ cell, g r c = some cell →
      ¬ (MainPy.countNeighbors rows cols g r c = 2
          ∨ MainPy.countNeighbors rows cols g r c = 3) →
        (MainPy.lifePass rows cols rng k g).1.newGrid r c = none
        ∧ (MainPy.updateLogic rows cols rng k g).1 r c = none)
    ∧ (g r c = none → MainPy.countNeighbors rows cols g r c = 3 →
        (∃ b, (MainPy.lifePass rows cols rng k g).1.newGrid r c = some b)
        ∧ ((MainPy.updateLogic rows cols rng k g).1 r c).isSome)
    ∧ (g r c = none → MainPy.countNeighbors rows cols g r c ≠ 3 →
        (MainPy.lifePass rows cols rng k g).1.newGrid r c = none
        ∧ (MainPy.updateLogic rows cols rng k g).1 r c = none) := by
  obtain ⟨j, hj⟩ := MainPy.lifePass_spec rows cols rng k g (r, c) hin
  have hw : ((MainPy.updateLogic rows cols rng k g).1 r c).isSome
      = ((MainPy.lifePass rows cols rng k g).1.newGrid r c).isSome := by
    exact MainPy.applyWarRules_isSome rows cols rng
      (MainPy.lifePass rows cols rng k g).2
      (MainPy.lifePass rows cols rng k g).1.newGrid (r, c)
  refine ⟨?_, ?_, ?_, ?_⟩
  · intro cell hcell hn
    have hv : (MainPy.lifePass rows cols rng k g).1.newGrid r c = some cell := by
      rw [hj]
      unfold MainPy.lifeVal
      simp only [hcell, hn, if_true]
    refine ⟨hv, ?_⟩
    rw [hw, hv]
    rfl
  · intro cell hcell hn
    have hv : (MainPy.lifePass rows cols rng k g).1.newGrid r c = none := by
      rw [hj]
      unfold MainPy.lifeVal
      simp only [hcell, hn, if_false]
    refine ⟨hv, ?_⟩
    have h2 := hw
    rw [hv] at h2
    simp only [Option.isSome_none] at h2
    exact Option.not_isSome_iff_eq_none.mp (by rw [h2]; simp)
  · intro hcell hn
    have hv : (MainPy.lifePass rows cols rng k g).1.newGrid r c
        = some (MainPy.bornCell rng j).1 := by
      rw [hj]
      unfold MainPy.lifeVal
      simp only [hcell, hn, if_true]
    refine ⟨⟨_, hv⟩, ?_⟩
    rw [hw, hv]
    rfl
  · intro hcell hn
    have hv : (MainPy.lifePass rows cols rng k g).1.newGrid r c = none := by
      rw [hj]
      unfold MainPy.lifeVal
      simp only [hcell, hn, if_false]
    refine ⟨hv, ?_⟩
    have h2 := hw
    rw [hv] at h2
    simp only [Option.isSome_none] at h2
    exact Option.not_isSome_iff_eq_none.mp (by rw [h2]; simp)

/-- Witness for C3 (amended) at a concrete coordinate: the empty 1x1 grid,
coordinate (0,0), 0 neighbors, stays dead in both stages. -/
theorem life_rule_correct_witness :
    (MainPy.lifePass 1 1 (fun _ => 0) 0 MainPy.emptyGrid).1.newGrid 0 0 = none
    ∧ (MainPy.updateLogic 1 1 (fun _ => 0) 0 MainPy.emptyGrid).1 0 0 = none :=
  (life_rule_correct 1 1 (fun _ => 0) 0 MainPy.emptyGrid 0 0 (by decide)).2.2.2
    rfl (by decide)


/-! ## War pass with an injected decision source (C5)

`apply_war_rules` with the random draws keyed by their decision point
(cell coordinate and neighbor offset) instead of drawn from the ambient
sequential stream: this is the reading under which "a fixed sequence of
random decisions" is meaningful — each potential conflict has its own
fixed decision, and the pass may visit the coordinates in any order. -/

namespace MainPy

/-- The net value the war pass leaves at a live cell `p`, evaluated
entirely against the snapshot `g`: scan the neighbor offsets in order;
each in-bounds live neighbor whose offset exceeds the cell's by more than
`WAR_THRESHOLD` and whose decision is `< WAR_PROBABILITY` overwrites the
cell (the last such neighbor wins); a dead cell keeps its copied `none`. -/
def warCellVal (rows cols : ℕ) (dec : ℤ → ℤ → ℤ → ℤ → ℚ) (g : Grid)
    (p : ℤ × ℤ) : Option Cell :=
  match g p.1 p.2 with
  | none => none
  | some cell =>
    neighborOffsets.foldl (fun cur d =>
      if inB rows cols (p.1 + d.1) (p.2 + d.2) then
        match g (p.1 + d.1) (p.2 + d.2) with
        | some nb =>
          if nb.offset - cell.offset > WAR_THRESHOLD then
            if dec p.1 p.2 d.1 d.2 < WAR_PROBABILITY then some nb else cur
          else cur
        | none => cur
      else cur) (some cell)

/-- The war pass over an explicit iteration order: `new_grid` starts as a
copy of the snapshot and each visited coordinate receives its
`warCellVal`, every read going to the immutable snapshot `g`. -/
def applyWarRulesDec (rows cols : ℕ) (dec : ℤ → ℤ → ℤ → ℤ → ℚ)
    (order : List (ℤ × ℤ)) (g : Grid) : Grid :=
  order.foldl (fun ng p => upd2 ng p (warCellVal rows cols dec g p)) g

theorem applyWarRulesDec_fold_spec (rows cols : ℕ) (dec : ℤ → ℤ → ℤ → ℤ → ℚ)
    (g : Grid) :
    ∀ (order : List (ℤ × ℤ)) (ng : Grid) (r c : ℤ),
      (order.foldl (fun ng p => upd2 ng p (warCellVal rows cols dec g p)) ng) r c
        = if (r, c) ∈ order then warCellVal rows cols dec g (r, c) else ng r c := by
  intro order
  induction order with
  | nil =>
    intro ng r c
    simp
  | cons p rest ih =>
    intro ng r c
    rw [List.foldl_cons, ih]
    by_cases hr : (r, c) ∈ rest
    · rw [if_pos hr, if_pos (List.mem_cons_of_mem p hr)]
    · rw [if_neg hr]
      by_cases hp : (r, c) = p
      · subst hp
        rw [if_pos (List.mem_cons_self _ _)]
        exact upd2_same _ _ _
      · rw [if_neg ?hmem]
        case hmem =>
          rw [List.mem_cons]
          push_neg
          exact ⟨hp, hr⟩
        exact upd2_other _ _ _ _ hp

end MainPy

/-- C5: for a fixed pre-pass grid snapshot and a fixed assignment of
random decisions to decision points, the conflict (war) pass sends every
visited coordinate to `warCellVal` of the immutable snapshot — a function
of the snapshot and that coordinate's own decisions only — and leaves
unvisited coordinates at their copied value; consequently any two
iteration orders visiting the same set of coordinates produce identical
grids. -/
theorem war_pass_order_independent (rows cols : ℕ)
    (dec : ℤ → ℤ → ℤ → ℤ → ℚ) (g : MainPy.Grid) :
    (∀ (order : List (ℤ × ℤ)) (r c : ℤ),
      MainPy.applyWarRulesDec rows cols dec order g r c
        = if (r, c) ∈ order then MainPy.warCellVal rows cols dec g (r, c)
          else g r c)
    ∧ (∀ order1 order2 : List (ℤ × ℤ),
        (∀ p : ℤ × ℤ, p ∈ order1 ↔ p ∈ order2) →
        ∀ r c : ℤ,
          MainPy.applyWarRulesDec rows cols dec order1 g r c
            = MainPy.applyWarRulesDec rows cols dec order2 g r c) := by
  have hspec := MainPy.applyWarRulesDec_fold_spec rows cols dec g
  constructor
  · intro order r c
    exact hspec order g r c
  · intro order1 order2 hmem r c
    rw [MainPy.applyWarRulesDec, MainPy.applyWarRulesDec, hspec, hspec]
    by_cases h1 : (r, c) ∈ order1
    · rw [if_pos h1, if_pos ((hmem (r, c)).mp h1)]
    · rw [if_neg h1, if_neg (fun h2 => h1 ((hmem (r, c)).mpr h2))]

/-- Witness for C5: the row-major order over a 1x4 grid and its reverse
produce the same war-pass result at the adopting coordinate (0,1) of the
concrete grid `warRowGrid`. -/
theorem war_pass_order_independent_witness :
    MainPy.applyWarRulesDec 1 4 (fun _ _ _ _ => 0) (rowMajor 1 4) warRowGrid 0 1
      = MainPy.applyWarRulesDec 1 4 (fun _ _ _ _ => 0) (rowMajor 1 4).reverse
          warRowGrid 0 1
    ∧ MainPy.applyWarRulesDec 1 4 (fun _ _ _ _ => 0) (rowMajor 1 4) warRowGrid 0 1
      = some warCellB := by
  constructor
  · exact (war_pass_order_independent 1 4 (fun _ _ _ _ => 0) warRowGrid).2
      (rowMajor 1 4) (rowMajor 1 4).reverse
      (fun p => (List.mem_reverse).symm) 0 1
  · decide


/-! ## `add_piece_to_board` (C9) -/

namespace MainPy

theorem writeBlock_preserve (rows cols : ℕ) (row col : ℤ) (v : Option Cell) :
    ∀ (l : List (ℤ × ℤ)) (g : Grid) (r c : ℤ),
      (∀ d ∈ l, ¬ (r = row + d.1 ∧ c = col + d.2)) →
      writeBlock rows cols row col v l g r c = g r c := by
  intro l
  induction l with
  | nil => intro g r c _; rfl
  | cons d0 rest ih =>
    intro g r c hall
    rw [writeBlock, List.foldl_cons]
    have hrest : ∀ d ∈ rest, ¬ (r = row + d.1 ∧ c = col + d.2) :=
      fun d hd => hall d (List.mem_cons_of_mem d0 hd)
    have hrw : ∀ g0 : Grid, List.foldl (fun acc d =>
        if inB rows cols (row + d.1) (col + d.2) then
          upd2 acc (row + d.1, col + d.2) v
        else acc) g0 rest = writeBlock rows cols row col v rest g0 :=
      fun g0 => rfl
    rw [hrw, ih _ r c hrest]
    split
    · refine upd2_other _ _ (r, c) _ ?_
      intro hc
      rw [Prod.mk.injEq] at hc
      exact hall d0 (List.mem_cons_self _ _) hc
    · rfl

theorem writeBlock_oob (rows cols : ℕ) (row col : ℤ) (v : Option Cell) :
    ∀ (l : List (ℤ × ℤ)) (g : Grid) (r c : ℤ),
      inB rows cols r c = false →
      writeBlock rows cols row col v l g r c = g r c := by
  intro l
  induction l with
  | nil => intro g r c _; rfl
  | cons d0 rest ih =>
    intro g r c hoob
    rw [writeBlock, List.foldl_cons]
    have hrw : ∀ g0 : Grid, List.foldl (fun acc d =>
        if inB rows cols (row + d.1) (col + d.2) then
          upd2 acc (row + d.1, col + d.2) v
        else acc) g0 rest = writeBlock rows cols row col v rest g0 :=
      fun g0 => rfl
    rw [hrw, ih _ r c hoob]
    split
    case isTrue hin =>
      refine upd2_other _ _ (r, c) _ ?_
      intro hc
      rw [Prod.mk.injEq] at hc
      rw [hc.1, hc.2] at hoob
      rw [hin] at hoob
      exact absurd hoob (by simp)
    case isFalse => rfl

theorem writeBlock_write (rows cols : ℕ) (row col : ℤ) (v : Option Cell) :
    ∀ (l : List (ℤ × ℤ)) (g : Grid) (d : ℤ × ℤ), l.Nodup → d ∈ l →
      inB rows cols (row + d.1) (col + d.2) = true →
      writeBlock rows cols row col v l g (row + d.1) (col + d.2) = v := by
  intro l
  induction l with
  | nil => intro g d _ hd; exact absurd hd (List.not_mem_nil d)
  | cons d0 rest ih =>
    intro g d hnd hd hin
    rw [List.nodup_cons] at hnd
    rw [List.mem_cons] at hd
    rcases hd with hd | hd
    · subst hd
      rw [writeBlock, List.foldl_cons]
      have hrw : ∀ g0 : Grid, List.foldl (fun acc e =>
          if inB rows cols (row + e.1) (col + e.2) then
            upd2 acc (row + e.1, col + e.2) v
          else acc) g0 rest = writeBlock rows cols row col v rest g0 :=
        fun g0 => rfl
      rw [hrw, writeBlock_preserve rows cols row col v rest _ _ _ ?hall]
      case hall =>
        intro e he hc
        have : e = d := by
          rw [Prod.ext_iff]
          omega
        subst this
        exact hnd.1 he
      rw [if_pos hin]
      exact upd2_same _ _ _
    · rw [writeBlock, List.foldl_cons]
      have hrw : ∀ g0 : Grid, List.foldl (fun acc e =>
          if inB rows cols (row + e.1) (col + e.2) then
            upd2 acc (row + e.1, col + e.2) v
          else acc) g0 rest = writeBlock rows cols row col v rest g0 :=
        fun g0 => rfl
      rw [hrw]
      exact ih _ d hnd.2 hd hin

end MainPy

/-- C9: `add_piece_to_board` never raises (its embedding is total, with
every single write guarded by the source's own bounds check) and writes
only within grid bounds: every out-of-bounds coordinate keeps its old
value, every coordinate outside the mapped 3x3 block keeps its old value,
and every in-bounds target of the 3x3 block receives the fresh cell;
mapped coordinates of the block that fall outside the grid are silently
skipped. -/
theorem add_piece_in_bounds (rows cols : ℕ) (rng : ℕ → ℚ) (k : ℕ)
    (note velocity : ℤ) (g : MainPy.Grid)
    (hv : 0 ≤ velocity ∧ velocity ≤ 127) :
    (∀ r c : ℤ, MainPy.inB rows cols r c = false →
      (MainPy.addPieceToBoard rows cols rng k note velocity g).1 r c = g r c)
    ∧ (∀ r c : ℤ,
        (∀ d ∈ MainPy.threeByThree,
          ¬ (r = MainPy.pieceRow rows velocity + d.1
              ∧ c = MainPy.pieceCol cols note + d.2)) →
        (MainPy.addPieceToBoard rows cols rng k note velocity g).1 r c = g r c)
    ∧ (∀ d ∈ MainPy.threeByThree,
        MainPy.inB rows cols (MainPy.pieceRow rows velocity + d.1)
            (MainPy.pieceCol cols note + d.2) = true →
        (MainPy.addPieceToBoard rows cols rng k note velocity g).1
            (MainPy.pieceRow rows velocity + d.1)
            (MainPy.pieceCol cols note + d.2)
          = some (MainPy.pieceCell rng k velocity).1) := by
  refine ⟨?_, ?_, ?_⟩
  · intro r c hoob
    exact MainPy.writeBlock_oob rows cols _ _ _ MainPy.threeByThree g r c hoob
  · intro r c hall
    exact MainPy.writeBlock_preserve rows cols _ _ _ MainPy.threeByThree g r c hall
  · intro d hd hin
    exact MainPy.writeBlock_write rows cols _ _ _ MainPy.threeByThree g d
      (by decide) hd hin

/-- Witness for C9 on the real grid dimensions (108 x 192), note 60 and
velocity 100: the mapped block corner is (82, 84), in bounds, and
receives the fresh cell. -/
theorem add_piece_in_bounds_witness :
    MainPy.pieceRow 108 100 = 82
    ∧ MainPy.pieceCol 192 60 = 84
    ∧ (MainPy.addPieceToBoard 108 192 (fun _ => 0) 0 60 100 MainPy.emptyGrid).1
        82 84 = some (MainPy.pieceCell (fun _ => 0) 0 100).1 := by
  have hrow : MainPy.pieceRow 108 100 = 82 := by decide
  have hcol : MainPy.pieceCol 192 60 = 84 := by decide
  refine ⟨hrow, hcol, ?_⟩
  have h := (add_piece_in_bounds 108 192 (fun _ => 0) 0 60 100 MainPy.emptyGrid
    (by norm_num)).2.2 (0, 0) (by decide) ?hin
  case hin =>
    rw [hrow, hcol]
    decide
  rw [hrow, hcol] at h
  simpa using h


/-! ## Step purity and randomness (C2)

`update_logic` reads the hidden global random stream; two successive
calls therefore continue the stream at different cursors.  `StreamAgree`
says two (stream, cursor) pairs will produce the same draws from now on;
the simulation lemmas below show `update_logic` is a function of its
input grid and those draws alone. -/

namespace MainPy

/-- The two random sources agree on all draws from the given cursors on. -/
def StreamAgree (r1 r2 : ℕ → ℚ) (k1 k2 : ℕ) : Prop :=
  ∀ i, r1 (k1 + i) = r2 (k2 + i)

theorem StreamAgree.head {r1 r2 : ℕ → ℚ} {k1 k2 : ℕ}
    (h : StreamAgree r1 r2 k1 k2) : r1 k1 = r2 k2 := by
  have h0 := h 0
  simpa using h0

theorem StreamAgree.shift {r1 r2 : ℕ → ℚ} {k1 k2 : ℕ}
    (h : StreamAgree r1 r2 k1 k2) (n : ℕ) :
    StreamAgree r1 r2 (k1 + n) (k2 + n) := by
  intro i
  have hn := h (n + i)
  rw [← Nat.add_assoc] at hn
  rw [← Nat.add_assoc] at hn
  exact hn

theorem foldl_stream_sim (r1 r2 : ℕ → ℚ)
    (f1 f2 : (Store × ℕ) → (ℤ × ℤ) → Store × ℕ)
    (hstep : ∀ (s : Store) (k1 k2 : ℕ) (p : ℤ × ℤ), StreamAgree r1 r2 k1 k2 →
      (f1 (s, k1) p).1 = (f2 (s, k2) p).1
      ∧ StreamAgree r1 r2 (f1 (s, k1) p).2 (f2 (s, k2) p).2) :
    ∀ (l : List (ℤ × ℤ)) (s : Store) (k1 k2 : ℕ), StreamAgree r1 r2 k1 k2 →
      (l.foldl f1 (s, k1)).1 = (l.foldl f2 (s, k2)).1
      ∧ StreamAgree r1 r2 (l.foldl f1 (s, k1)).2 (l.foldl f2 (s, k2)).2 := by
  intro l
  induction l with
  | nil => intro s k1 k2 h; exact ⟨rfl, h⟩
  | cons p rest ih =>
    intro s k1 k2 h
    obtain ⟨hs, hk⟩ := hstep s k1 k2 p h
    rw [List.foldl_cons, List.foldl_cons]
    have e1 : f1 (s, k1) p = ((f1 (s, k1) p).1, (f1 (s, k1) p).2) := rfl
    have e2 : f2 (s, k2) p = ((f2 (s, k2) p).1, (f2 (s, k2) p).2) := rfl
    rw [e1, e2, ← hs]
    exact ih (f1 (s, k1) p).1 (f1 (s, k1) p).2 (f2 (s, k2) p).2 hk

theorem bornCell_sim (r1 r2 : ℕ → ℚ) (k1 k2 : ℕ)
    (h : StreamAgree r1 r2 k1 k2) :
    (bornCell r1 k1).1 = (bornCell r2 k2).1
    ∧ (bornCell r1 k1).2 = k1 + 3 ∧ (bornCell r2 k2).2 = k2 + 3 := by
  have h0 := h.head
  have h1 := h 1
  have h2 := h 2
  refine ⟨?_, rfl, rfl⟩
  simp only [bornCell, pyChoice, pyRandom, pyUniform]
  rw [h0, h1, h2]

theorem lifeVal_sim (rows cols : ℕ) (r1 r2 : ℕ → ℚ) (k1 k2 : ℕ) (g : Grid)
    (p : ℤ × ℤ) (h : StreamAgree r1 r2 k1 k2) :
    (lifeVal rows cols r1 k1 g p).1 = (lifeVal rows cols r2 k2 g p).1
    ∧ StreamAgree r1 r2 (lifeVal rows cols r1 k1 g p).2
        (lifeVal rows cols r2 k2 g p).2 := by
  unfold lifeVal
  dsimp only
  cases hc : g p.1 p.2 with
  | some cell => exact ⟨rfl, h⟩
  | none =>
    by_cases hn : countNeighbors rows cols g p.1 p.2 = 3
    · rw [if_pos hn, if_pos hn]
      obtain ⟨hb, hb1, hb2⟩ := bornCell_sim r1 r2 k1 k2 h
      constructor
      · dsimp only
        rw [hb]
      · dsimp only
        rw [hb1, hb2]
        exact h.shift 3
    · rw [if_neg hn, if_neg hn]
      exact ⟨rfl, h⟩

theorem lifeStep_sim (rows cols : ℕ) (r1 r2 : ℕ → ℚ) (s : Store)
    (k1 k2 : ℕ) (p : ℤ × ℤ) (h : StreamAgree r1 r2 k1 k2) :
    (lifeStep rows cols r1 (s, k1) p).1 = (lifeStep rows cols r2 (s, k2) p).1
    ∧ StreamAgree r1 r2 (lifeStep rows cols r1 (s, k1) p).2
        (lifeStep rows cols r2 (s, k2) p).2 := by
  rw [lifeStep_eq, lifeStep_eq]
  obtain ⟨hv, hk⟩ := lifeVal_sim rows cols r1 r2 k1 k2 s.grid p h
  constructor
  · dsimp only
    rw [hv]
  · dsimp only
    exact hk

theorem warNb_sim (rows cols : ℕ) (r1 r2 : ℕ → ℚ) (p : ℤ × ℤ) (cell : Cell)
    (s : Store) (k1 k2 : ℕ) (d : ℤ × ℤ) (h : StreamAgree r1 r2 k1 k2) :
    (warNb rows cols r1 p cell (s, k1) d).1
      = (warNb rows cols r2 p cell (s, k2) d).1
    ∧ StreamAgree r1 r2 (warNb rows cols r1 p cell (s, k1) d).2
        (warNb rows cols r2 p cell (s, k2) d).2 := by
  unfold warNb
  dsimp only
  by_cases hin : inB rows cols (p.1 + d.1) (p.2 + d.2)
  · rw [if_pos hin, if_pos hin]
    cases hc : s.grid (p.1 + d.1) (p.2 + d.2) with
    | none => exact ⟨rfl, h⟩
    | some nb =>
      dsimp only
      by_cases hoff : nb.offset - cell.offset > WAR_THRESHOLD
      · rw [if_pos hoff, if_pos hoff]
        have hq : (pyRandom r1 k1).1 = (pyRandom r2 k2).1 := h.head
        simp only [hq]
        by_cases hp : (pyRandom r2 k2).1 < WAR_PROBABILITY
        · rw [if_pos hp, if_pos hp]
          exact ⟨rfl, h.shift 1⟩
        · rw [if_neg hp, if_neg hp]
          exact ⟨rfl, h.shift 1⟩
      · rw [if_neg hoff, if_neg hoff]
        exact ⟨rfl, h⟩
  · rw [if_neg hin, if_neg hin]
    exact ⟨rfl, h⟩

theorem warStep_sim (rows cols : ℕ) (r1 r2 : ℕ → ℚ) (s : Store)
    (k1 k2 : ℕ) (p : ℤ × ℤ) (h : StreamAgree r1 r2 k1 k2) :
    (warStep rows cols r1 (s, k1) p).1 = (warStep rows cols r2 (s, k2) p).1
    ∧ StreamAgree r1 r2 (warStep rows cols r1 (s, k1) p).2
        (warStep rows cols r2 (s, k2) p).2 := by
  unfold warStep
  dsimp only
  cases hc : s.grid p.1 p.2 with
  | none => exact ⟨rfl, h⟩
  | some cell =>
    exact foldl_stream_sim r1 r2 (warNb rows cols r1 p cell)
      (warNb rows cols r2 p cell)
      (fun s0 j1 j2 d h0 => warNb_sim rows cols r1 r2 p cell s0 j1 j2 d h0)
      neighborOffsets s k1 k2 h

theorem lifePass_sim (rows cols : ℕ) (r1 r2 : ℕ → ℚ) (k1 k2 : ℕ) (g : Grid)
    (h : StreamAgree r1 r2 k1 k2) :
    (lifePass rows cols r1 k1 g).1 = (lifePass rows cols r2 k2 g).1
    ∧ StreamAgree r1 r2 (lifePass rows cols r1 k1 g).2
        (lifePass rows cols r2 k2 g).2 :=
  foldl_stream_sim r1 r2 (lifeStep rows cols r1) (lifeStep rows cols r2)
    (fun s j1 j2 p h0 => lifeStep_sim rows cols r1 r2 s j1 j2 p h0)
    (rowMajor rows cols) ⟨g, emptyGrid⟩ k1 k2 h

theorem applyWarRules_sim (rows cols : ℕ) (r1 r2 : ℕ → ℚ) (k1 k2 : ℕ)
    (g : Grid) (h : StreamAgree r1 r2 k1 k2) :
    (applyWarRules rows cols r1 k1 g).1 = (applyWarRules rows cols r2 k2 g).1
    ∧ StreamAgree r1 r2 (applyWarRules rows cols r1 k1 g).2
        (applyWarRules rows cols r2 k2 g).2 :=
  foldl_stream_sim r1 r2 (warStep rows cols r1) (warStep rows cols r2)
    (fun s j1 j2 p h0 => warStep_sim rows cols r1 r2 s j1 j2 p h0)
    (rowMajor rows cols) ⟨g, g⟩ k1 k2 h

theorem updateLogic_sim (rows cols : ℕ) (r1 r2 : ℕ → ℚ) (k1 k2 : ℕ)
    (g : Grid) (h : StreamAgree r1 r2 k1 k2) :
    (updateLogic rows cols r1 k1 g).1 = (updateLogic rows cols r2 k2 g).1 := by
  obtain ⟨hs, hk⟩ := lifePass_sim rows cols r1 r2 k1 k2 g h
  show (applyWarRules rows cols r1 (lifePass rows cols r1 k1 g).2
      (lifePass rows cols r1 k1 g).1.newGrid).1.newGrid
    = (applyWarRules rows cols r2 (lifePass rows cols r2 k2 g).2
      (lifePass rows cols r2 k2 g).1.newGrid).1.newGrid
  rw [hs]
  rw [(applyWarRules_sim rows cols r1 r2 (lifePass rows cols r1 k1 g).2
    (lifePass rows cols r2 k2 g).2 (lifePass rows cols r2 k2 g).1.newGrid hk).1]

end MainPy

/-- C2 counterexample: a 2x2 grid with three live cells; the dead corner
is born on each call, and because the second call continues the global
random stream where the first left off, the two calls on the *same*
input grid return structurally different grids (differently colored born
cell). -/
def seqGrid : MainPy.Grid := fun r c =>
  if (r = 0 ∧ c = 0) ∨ (r = 0 ∧ c = 1) ∨ (r = 1 ∧ c = 0) then
    some ⟨(255, 64, 64, 255), 0, 1⟩
  else none

/-- A random stream whose first three draws are 0 and later draws 1/2. -/
def seqRng : ℕ → ℚ := fun i => if i < 3 then 0 else 1 / 2

theorem update_logic_twice_counterexample :
    (MainPy.updateLogic 2 2 seqRng 0 seqGrid).1 1 1
      ≠ (MainPy.updateLogic 2 2 seqRng
          (MainPy.updateLogic 2 2 seqRng 0 seqGrid).2 seqGrid).1 1 1 := by
  decide

/-- C2 (amended): `update_logic` never mutates its input grid — in the
store model both the birth/survival loop and the war pass leave the
`grid` array untouched, writing only `new_grid` — and it is a function of
the input grid and the random draws it consumes: two calls on the same
input grid whose random sources agree draw-for-draw return structurally
equal grids.  (Two *successive* calls continue the hidden stream at
different cursors and may differ on randomly drawn attributes, see the
counterexample.) -/
theorem update_logic_purity (rows cols : ℕ) (r1 r2 : ℕ → ℚ) (k1 k2 : ℕ)
    (g : MainPy.Grid) (h : MainPy.StreamAgree r1 r2 k1 k2) :
    (MainPy.lifePass rows cols r1 k1 g).1.grid = g
    ∧ (MainPy.applyWarRules rows cols r1 k1 g).1.grid = g
    ∧ (MainPy.updateLogic rows cols r1 k1 g).1
        = (MainPy.updateLogic rows cols r2 k2 g).1 :=
  ⟨MainPy.lifePass_grid rows cols r1 k1 g,
   MainPy.applyWarRules_grid rows cols r1 k1 g,
   MainPy.updateLogic_sim rows cols r1 r2 k1 k2 g h⟩

/-- Witness for C2 (amended) at the concrete 2x2 grid and equal streams. -/
theorem update_logic_purity_witness :
    (MainPy.lifePass 2 2 seqRng 0 seqGrid).1.grid = seqGrid
    ∧ (MainPy.applyWarRules 2 2 seqRng 0 seqGrid).1.grid = seqGrid
    ∧ (MainPy.updateLogic 2 2 seqRng 0 seqGrid).1
        = (MainPy.updateLogic 2 2 seqRng 0 seqGrid).1 :=
  update_logic_purity 2 2 seqRng seqRng 0 0 seqGrid (fun i => rfl)


/-! ## The per-frame control flow of `main` (C4)

One iteration of the `while running` loop of `main.py`, with the
event-polling block (quit / song-skip keys) out of scope: process due
MIDI events, auto-advance to the next song when the queue empties
(`start_time = pygame.time.get_ticks()` modelled as the frame's clock
reading), then — only when not paused — advance the transition counter
and step the automaton on the fixed cadence.  Note that in the source the
dispatch loop sits *outside* the `if not paused:` block. -/

namespace MainPy

/-- The fields of a MIDI `note_on` message the frame logic reads. -/
structure Msg where
  channel : ℤ
  note : ℤ
  velocity : ℤ
deriving DecidableEq

/-- The mutable state the frame loop threads between iterations. -/
structure SimState where
  pending : List (ℤ × Msg)
  currentGrid : Grid
  targetGrid : Grid
  transitionCounter : ℕ
  startTime : ℤ
  k : ℕ

/-- Dispatch of a single due event: channel 9 routes to a percussion
sample (sound only); anything else draws a random pan column, plays the
pitch-shifted note (sound only) and injects a piece into the grid. -/
def dispatchEvent (rows cols : ℕ) (rng : ℕ → ℚ) (st : Grid × ℕ)
    (e : ℤ × Msg) : Grid × ℕ :=
  if e.2.channel = 9 then st
  else
    let col := pyRandInt rng st.2 0 ((cols : ℤ) - 1)
    addPieceToBoard rows cols rng col.2 e.2.note e.2.velocity st.1

/-- What one frame produces: the dispatched events, the next state, and
the interpolation fraction `t` handed to the renderer. -/
structure FrameOut where
  dispatched : List (ℤ × Msg)
  state : SimState
  t : ℚ

/-- One iteration of the `while running` loop. -/
def frame (rows cols : ℕ) (rng : ℕ → ℚ) (paused : Bool) (now : ℤ)
    (nextSongEvents : List (ℤ × Msg)) (st : SimState) : FrameOut :=
  let adv := Sched.advance (now - st.startTime) st.pending
  let gk := adv.1.foldl (dispatchEvent rows cols rng) (st.currentGrid, st.k)
  let st1 : SimState :=
    if adv.2.isEmpty then
      ⟨nextSongEvents, emptyGrid, emptyGrid, st.transitionCounter, now, gk.2⟩
    else
      ⟨adv.2, gk.1, st.targetGrid, st.transitionCounter, st.startTime, gk.2⟩
  if paused then
    ⟨adv.1, st1, 0⟩
  else
    if TRANSITION_FRAMES ≤ st1.transitionCounter + 1 then
      let u1 := updateLogic rows cols rng st1.k st1.currentGrid
      let u2 := updateLogic rows cols rng u1.2 u1.1
      ⟨adv.1, ⟨st1.pending, u1.1, u2.1, 0, st1.startTime, u2.2⟩, 0⟩
    else
      ⟨adv.1,
       ⟨st1.pending, st1.currentGrid, st1.targetGrid, st1.transitionCounter + 1,
        st1.startTime, st1.k⟩,
       ((st1.transitionCounter + 1 : ℕ) : ℚ) / (TRANSITION_FRAMES : ℚ)⟩

end MainPy

/-- C4 counterexample: with `paused = true`, a due melodic event and a
later still-pending one, the frame still dispatches the due event and
injects its 3x3 piece into the grid (at mapped coordinate (82, 84) for
note 60, velocity 100): pausing does **not** stop scheduler dispatch. -/
def pausedMsg : MainPy.Msg := ⟨0, 60, 100⟩

/-- The concrete pre-frame state for the pause counterexample. -/
def pausedState : MainPy.SimState :=
  ⟨[(0, pausedMsg), (1000, pausedMsg)], MainPy.emptyGrid, MainPy.emptyGrid,
    0, 0, 0⟩

theorem paused_dispatch_counterexample :
    (MainPy.frame 108 192 (fun _ => 0) true 500 [] pausedState).dispatched
      = [(0, pausedMsg)]
    ∧ pausedState.currentGrid 82 84 = none
    ∧ ((MainPy.frame 108 192 (fun _ => 0) true 500 [] pausedState).state.currentGrid
        82 84).isSome = true := by
  refine ⟨by decide, rfl, by decide⟩

/-- C4 (amended): while paused, the automaton does not step — the
transition counter is unchanged, the target grid is untouched (except for
the board clear of the auto-advance-on-empty branch) and `t = 0` — but
scheduler dispatch continues exactly as when unpaused: the same due
events fire (drums play, pieces are injected) and the pending queue
advances identically, so events falling due during a pause are consumed
then, not dropped, and resuming replays nothing because the queue
position does not depend on the pause flag. -/
theorem frame_paused_behavior (rows cols : ℕ) (rng : ℕ → ℚ) (now : ℤ)
    (next : List (ℤ × MainPy.Msg)) (st : MainPy.SimState) :
    (MainPy.frame rows cols rng true now next st).dispatched
      = (Sched.advance (now - st.startTime) st.pending).1
    ∧ (MainPy.frame rows cols rng true now next st).dispatched
      = (MainPy.frame rows cols rng false now next st).dispatched
    ∧ (MainPy.frame rows cols rng true now next st).state.pending
      = (MainPy.frame rows cols rng false now next st).state.pending
    ∧ (MainPy.frame rows cols rng true now next st).state.transitionCounter
      = st.transitionCounter
    ∧ (MainPy.frame rows cols rng true now next st).state.targetGrid
      = (if (Sched.advance (now - st.startTime) st.pending).2.isEmpty
          then MainPy.emptyGrid else st.targetGrid)
    ∧ (MainPy.frame rows cols rng true now next st).t = 0 := by
  unfold MainPy.frame
  dsimp only
  cases he : (Sched.advance (now - st.startTime) st.pending).2.isEmpty with
  | false =>
    simp only [he, Bool.false_eq_true, if_false]
    refine ⟨rfl, ?_, ?_, rfl, rfl, rfl⟩
    · by_cases ht : MainPy.TRANSITION_FRAMES ≤ st.transitionCounter + 1
      · rw [if_pos ht]
        rfl
      · rw [if_neg ht]
        rfl
    · by_cases ht : MainPy.TRANSITION_FRAMES ≤ st.transitionCounter + 1
      · rw [if_pos ht]
        rfl
      · rw [if_neg ht]
        rfl
  | true =>
    simp only [he, if_true]
    refine ⟨by first | rfl | trivial, ?_, ?_, by first | rfl | trivial,
      by first | rfl | trivial, by first | rfl | trivial⟩
    · by_cases ht : MainPy.TRANSITION_FRAMES ≤ st.transitionCounter + 1
      · rw [if_pos ht]
        rfl
      · rw [if_neg ht]
        rfl
    · by_cases ht : MainPy.TRANSITION_FRAMES ≤ st.transitionCounter + 1
      · rw [if_pos ht]
        rfl
      · rw [if_neg ht]
        rfl


/-! ## `hybrid.py`: the doubled-neighborhood variant with drift (C8)

`update_grid` of `hybrid.py`: cells are RGB triples in a numpy array
(`(0,0,0)` is dead, `any(...)` means live), the board wraps (`%` on both
axes), `new_grid` starts as zeros, and for every coordinate in row-major
order: a live cell with 2..4 neighbors survives in place; a live cell
with exactly 5 neighbors is written at the offset coordinate
`((x+1) % H, (y+1) % W)`; a dead cell with 3 or 6 neighbors is born in
place with a random palette color; everything else writes nothing. -/

namespace Hybrid

/-- An RGB triple; `(0, 0, 0)` is a dead cell. -/
abbrev HColor := ℤ × ℤ × ℤ

abbrev HGrid := ℤ → ℤ → HColor

/-- The ROYGBIV palette of `hybrid.py` (all entries non-zero). -/
def hROYGBIV : List HColor :=
  [(255, 0, 0), (255, 127, 0), (255, 255, 0), (0, 255, 0),
   (0, 0, 255), (75, 0, 130), (148, 0, 211)]

/-- `count_neighbors(x, y)` with a wrapping (toroidal) board:
`nx, ny = (x + dx) % GRID_HEIGHT, (y + dy) % GRID_WIDTH`. -/
def countNeighbors (H W : ℕ) (g : HGrid) (x y : ℤ) : ℕ :=
  (neighborOffsets.filter (fun d =>
    decide (g ((x + d.1) % (H : ℤ)) ((y + d.2) % (W : ℤ)) ≠ (0, 0, 0)))).length

/-- One iteration of the `update_grid` double loop at coordinate `p`:
all reads go to the snapshot `g` (`self.grid`), all writes to the store's
new grid; a birth consumes one random draw. -/
def hUpdateStep (H W : ℕ) (rng : ℕ → ℚ) (g : HGrid) (st : HGrid × ℕ)
    (p : ℤ × ℤ) : HGrid × ℕ :=
  if g p.1 p.2 ≠ (0, 0, 0) then
    if 2 ≤ countNeighbors H W g p.1 p.2 ∧ countNeighbors H W g p.1 p.2 ≤ 4 then
      (upd2 st.1 p (g p.1 p.2), st.2)
    else if countNeighbors H W g p.1 p.2 = 5 then
      (upd2 st.1 ((p.1 + 1) % (H : ℤ), (p.2 + 1) % (W : ℤ)) (g p.1 p.2), st.2)
    else st
  else
    if countNeighbors H W g p.1 p.2 = 3 ∨ countNeighbors H W g p.1 p.2 = 6 then
      (upd2 st.1 p (MainPy.pyChoice rng st.2 hROYGBIV).1, st.2 + 1)
    else st

/-- `update_grid`: fold the per-coordinate step over the row-major order,
starting from the all-zeros `new_grid`. -/
def hUpdateGrid (H W : ℕ) (rng : ℕ → ℚ) (k : ℕ) (g : HGrid) : HGrid × ℕ :=
  (rowMajor H W).foldl (hUpdateStep H W rng g) ((fun _ _ => (0, 0, 0)), k)

/-- The coordinate (if any) that processing `p` writes: its own
coordinate for survival and birth, the `(+1, +1)`-offset coordinate
(modulo the dimensions) for the drift-on-5 rule; `none` when the cell
contributes nothing. -/
def hTarget (H W : ℕ) (g : HGrid) (p : ℤ × ℤ) : Option (ℤ × ℤ) :=
  if g p.1 p.2 ≠ (0, 0, 0) then
    if 2 ≤ countNeighbors H W g p.1 p.2 ∧ countNeighbors H W g p.1 p.2 ≤ 4 then
      some p
    else if countNeighbors H W g p.1 p.2 = 5 then
      some ((p.1 + 1) % (H : ℤ), (p.2 + 1) % (W : ℤ))
    else none
  else
    if countNeighbors H W g p.1 p.2 = 3 ∨ countNeighbors H W g p.1 p.2 = 6 then
      some p
    else none

theorem hUpdateStep_preserve (H W : ℕ) (rng : ℕ → ℚ) (g : HGrid)
    (st : HGrid × ℕ) (p q : ℤ × ℤ) (h : hTarget H W g p ≠ some q) :
    (hUpdateStep H W rng g st p).1 q.1 q.2 = st.1 q.1 q.2 := by
  unfold hUpdateStep hTarget at *
  by_cases hl : g p.1 p.2 ≠ (0, 0, 0)
  · rw [if_pos hl] at h ⊢
    by_cases hs : 2 ≤ countNeighbors H W g p.1 p.2 ∧ countNeighbors H W g p.1 p.2 ≤ 4
    · rw [if_pos hs] at h ⊢
      refine upd2_other _ _ q _ ?_
      intro hc
      exact h (by rw [hc])
    · rw [if_neg hs] at h ⊢
      by_cases h5 : countNeighbors H W g p.1 p.2 = 5
      · rw [if_pos h5] at h ⊢
        refine upd2_other _ _ q _ ?_
        intro hc
        exact h (by rw [hc])
      · rw [if_neg h5]
  · rw [if_neg hl] at h ⊢
    by_cases hb : countNeighbors H W g p.1 p.2 = 3 ∨ countNeighbors H W g p.1 p.2 = 6
    · rw [if_pos hb] at h ⊢
      refine upd2_other _ _ q _ ?_
      intro hc
      exact h (by rw [hc])
    · rw [if_neg hb]

theorem hUpdateStep_live_write (H W : ℕ) (rng : ℕ → ℚ) (g : HGrid)
    (st : HGrid × ℕ) (p q : ℤ × ℤ) (hl : g p.1 p.2 ≠ (0, 0, 0))
    (h : hTarget H W g p = some q) :
    (hUpdateStep H W rng g st p).1 q.1 q.2 = g p.1 p.2 := by
  unfold hUpdateStep hTarget at *
  rw [if_pos hl] at h ⊢
  by_cases hs : 2 ≤ countNeighbors H W g p.1 p.2 ∧ countNeighbors H W g p.1 p.2 ≤ 4
  · rw [if_pos hs] at h ⊢
    have hq : p = q := by
      exact Option.some.inj h
    rw [← hq]
    exact upd2_same _ _ _
  · rw [if_neg hs] at h ⊢
    by_cases h5 : countNeighbors H W g p.1 p.2 = 5
    · rw [if_pos h5] at h ⊢
      have hq : ((p.1 + 1) % (H : ℤ), (p.2 + 1) % (W : ℤ)) = q :=
        Option.some.inj h
      rw [← hq]
      exact upd2_same _ _ _
    · rw [if_neg h5] at h
      exact absurd h (by simp)

theorem hFold_preserve (H W : ℕ) (rng : ℕ → ℚ) (g : HGrid) :
    ∀ (l : List (ℤ × ℤ)) (st : HGrid × ℕ) (q : ℤ × ℤ),
      (∀ p ∈ l, hTarget H W g p ≠ some q) →
      (l.foldl (hUpdateStep H W rng g) st).1 q.1 q.2 = st.1 q.1 q.2 := by
  intro l
  induction l with
  | nil => intro st q _; rfl
  | cons p rest ih =>
    intro st q hall
    rw [List.foldl_cons]
    rw [ih _ q (fun e he => hall e (List.mem_cons_of_mem p he))]
    exact hUpdateStep_preserve H W rng g st p q (hall p (List.mem_cons_self _ _))

theorem hFold_unique_live_write (H W : ℕ) (rng : ℕ → ℚ) (g : HGrid) :
    ∀ (l : List (ℤ × ℤ)) (st : HGrid × ℕ) (q p0 : ℤ × ℤ), l.Nodup → p0 ∈ l →
      (∀ p ∈ l, hTarget H W g p = some q → p = p0) →
      g p0.1 p0.2 ≠ (0, 0, 0) → hTarget H W g p0 = some q →
      (l.foldl (hUpdateStep H W rng g) st).1 q.1 q.2 = g p0.1 p0.2 := by
  intro l
  induction l with
  | nil => intro st q p0 _ hm; exact absurd hm (List.not_mem_nil p0)
  | cons p rest ih =>
    intro st q p0 hnd hm huniq hl ht
    rw [List.nodup_cons] at hnd
    rw [List.mem_cons] at hm
    rcases hm with hm | hm
    · subst hm
      rw [List.foldl_cons]
      rw [hFold_preserve H W rng g rest _ q ?hnone]
      case hnone =>
        intro e he hc
        have he0 : e = p0 := huniq e (List.mem_cons_of_mem p0 he) hc
        rw [he0] at he
        exact hnd.1 he
      exact hUpdateStep_live_write H W rng g st p0 q hl ht
    · rw [List.foldl_cons]
      refine ih _ q p0 hnd.2 hm
        (fun e he hc => huniq e (List.mem_cons_of_mem p he) hc) hl ht

end Hybrid

/-- C8 counterexample: a 5x5 wrapped grid whose dead center (2, 2) has
exactly 5 live neighbors; contrary to the claim, nothing is born at the
offset coordinate (3, 3) (nor at (2, 2) itself) — the drift-on-5 branch
of `hybrid.py` applies only to live cells, and a dead cell with 5
neighbors contributes nothing. -/
def hDeadGrid : Hybrid.HGrid := fun x y =>
  if (x, y) ∈ ([(1, 1), (1, 2), (1, 3), (2, 1), (2, 3)] : List (ℤ × ℤ)) then
    (255, 0, 0)
  else (0, 0, 0)

theorem hybrid_drift_counterexample :
    hDeadGrid 2 2 = (0, 0, 0)
    ∧ Hybrid.countNeighbors 5 5 hDeadGrid 2 2 = 5
    ∧ (Hybrid.hUpdateGrid 5 5 (fun _ => 0) 0 hDeadGrid).1 3 3 = (0, 0, 0)
    ∧ (Hybrid.hUpdateGrid 5 5 (fun _ => 0) 0 hDeadGrid).1 2 2 = (0, 0, 0) := by
  refine ⟨rfl, by decide, by decide, by decide⟩

/-- C8 (amended): in `hybrid.py`'s variant (birth {3,6}, survive {2,3,4},
drift threshold 5, wrapped boundary), at every in-range coordinate: a
**live** cell with 2..4 neighbors is written in place; a **live** cell
with exactly 5 neighbors is written at the offset coordinate
`((x+1) % H, (y+1) % W)` instead of its own (the drift rule moves live
cells, it does not place births); a dead cell with 3 or 6 neighbors is
born in place; a dead cell with any other count — in particular count 5 —
contributes no write at all.  When the drifting cell is the only writer
of its offset target, the final grid holds the drifted cell there. -/
theorem hybrid_drift_rule (H W : ℕ) (rng : ℕ → ℚ) (k : ℕ)
    (g : Hybrid.HGrid) (x y : ℤ) :
    (g x y ≠ (0, 0, 0) →
      (2 ≤ Hybrid.countNeighbors H W g x y ∧ Hybrid.countNeighbors H W g x y ≤ 4) →
      Hybrid.hTarget H W g (x, y) = some (x, y))
    ∧ (g x y ≠ (0, 0, 0) → Hybrid.countNeighbors H W g x y = 5 →
        Hybrid.hTarget H W g (x, y) = some ((x + 1) % (H : ℤ), (y + 1) % (W : ℤ)))
    ∧ (g x y = (0, 0, 0) →
        (Hybrid.countNeighbors H W g x y = 3 ∨ Hybrid.countNeighbors H W g x y = 6) →
        Hybrid.hTarget H W g (x, y) = some (x, y))
    ∧ (g x y = (0, 0, 0) → Hybrid.countNeighbors H W g x y = 5 →
        Hybrid.hTarget H W g (x, y) = none)
    ∧ (g x y ≠ (0, 0, 0) → Hybrid.countNeighbors H W g x y = 5 →
        (x, y) ∈ rowMajor H W →
        (∀ p ∈ rowMajor H W,
          Hybrid.hTarget H W g p
              = some ((x + 1) % (H : ℤ), (y + 1) % (W : ℤ)) → p = (x, y)) →
        (Hybrid.hUpdateGrid H W rng k g).1 ((x + 1) % (H : ℤ)) ((y + 1) % (W : ℤ))
          = g x y) := by
  refine ⟨?_, ?_, ?_, ?_, ?_⟩
  · intro hl hs
    unfold Hybrid.hTarget
    rw [if_pos hl, if_pos hs]
  · intro hl h5
    unfold Hybrid.hTarget
    have hs : ¬ (2 ≤ Hybrid.countNeighbors H W g x y
        ∧ Hybrid.countNeighbors H W g x y ≤ 4) := by
      omega
    rw [if_pos hl, if_neg hs, if_pos h5]
  · intro hd hb
    unfold Hybrid.hTarget
    rw [if_neg (by simp [hd]), if_pos hb]
  · intro hd h5
    unfold Hybrid.hTarget
    have hb : ¬ (Hybrid.countNeighbors H W g x y = 3
        ∨ Hybrid.countNeighbors H W g x y = 6) := by
      omega
    rw [if_neg (by simp [hd]), if_neg hb]
  · intro hl h5 hmem huniq
    have ht : Hybrid.hTarget H W g (x, y)
        = some ((x + 1) % (H : ℤ), (y + 1) % (W : ℤ)) := by
      unfold Hybrid.hTarget
      have hs : ¬ (2 ≤ Hybrid.countNeighbors H W g x y
          ∧ Hybrid.countNeighbors H W g x y ≤ 4) := by
        omega
      rw [if_pos hl, if_neg hs, if_pos h5]
    exact Hybrid.hFold_unique_live_write H W rng g (rowMajor H W)
      ((fun _ _ => (0, 0, 0)), k) ((x + 1) % (H : ℤ), (y + 1) % (W : ℤ)) (x, y)
      (rowMajor_nodup H W) hmem huniq hl ht

/-- The 5x5 grid with a live center (2, 2) that has exactly 5 live
neighbors: the center drifts to (3, 3). -/
def hDriftGrid : Hybrid.HGrid := fun x y =>
  if (x, y) ∈ ([(2, 2), (1, 1), (1, 2), (1, 3), (2, 1), (2, 3)] : List (ℤ × ℤ)) then
    (255, 0, 0)
  else (0, 0, 0)

/-- Witness for C8 (amended): on `hDriftGrid` the live center with 5
neighbors ends up at (3, 3) in the updated grid. -/
theorem hybrid_drift_rule_witness :
    Hybrid.hTarget 5 5 hDriftGrid (2, 2) = some (3, 3)
    ∧ (Hybrid.hUpdateGrid 5 5 (fun _ => 0) 0 hDriftGrid).1 3 3 = (255, 0, 0) := by
  have h2 := (hybrid_drift_rule 5 5 (fun _ => 0) 0 hDriftGrid 2 2).2.1
    (by decide) (by decide)
  have h5 := (hybrid_drift_rule 5 5 (fun _ => 0) 0 hDriftGrid 2 2).2.2.2.2
    (by decide) (by decide) (by decide) (by decide)
  have he : ((2 + 1 : ℤ) % ((5 : ℕ) : ℤ)) = 3 := by decide
  constructor
  · rw [h2, he]
  · rw [he] at h5
    rw [h5]
    decide

end MusicBoard
